import Mathlib

/-!
Verification development for the frictionless-synth generator engine
(`src/frictionless_synth`).  The Python code is shallowly embedded:

* Python's per-run `RandState` NamedTuple is split into its immutable
  bindings (`REnv`: locale, `max_unique_attempts`, default probabilities)
  and its interior-mutable objects (`RMut`: the RNG, and the global `seen`
  set used by `unique`).  A generator `RandGen[T]` becomes a pure function
  `Gen σ α := REnv → RMut σ → Except GenErr (α × RMut σ)`, where `σ` is the
  element type of the run-wide `seen` set.
* The RNG (`random.Random`) is modelled as a stream of raw natural draws
  (`rng : List Nat`, exhausted entries read as 0).  `Random.random()`
  yields `(k % 2^53) / 2^53 : ℚ`, `Random.randint(lo, hi)` yields
  `lo + k % (hi - lo + 1)`, and `Random.choice(l)` picks index
  `k % l.length`; each consumes one stream element.
* Python exceptions become the `GenErr` error type of the `Except` monad.
* Closures holding a private mutable set (`local_unique`, and the
  combinators built over it) are embedded with the private set threaded
  explicitly: the set a fresh build allocates is `[]`.
-/

namespace FSynth

/-- Errors a generator run can raise: `RuntimeError` from the uniqueness
combinators (with the attempt budget), `ValueError` from `randint` with
`min > max`, and `IndexError` from `random.choice` on an empty list. -/
inductive GenErr where
  | uniquenessExhausted (attempts : Nat)
  | invalidRange
  | emptyChoice
  deriving DecidableEq, Repr

/-- The `MissingValueStyle` literal union from `generators.py`
(the `RandGen[str]` alternative of `default_missing_style` is not
modelled; the claims only exercise literal styles). -/
inductive MissingValueStyle where
  | SPSS
  | SATA
  | UNDERSCORE
  deriving DecidableEq, Repr

/-- The immutable bindings of the `RandState` NamedTuple
(`generators.py` lines 13-19): a NamedTuple cannot rebind its fields, so
`locale`, `max_unique_attempts`, `default_maybe_prob` and
`default_missing_style` are constant over a run. -/
structure REnv where
  locale : String := "en-US"
  maxUniqueAttempts : Nat := 1000
  defaultMaybeProb : Rat := 1/2
  defaultMissingStyle : MissingValueStyle := .SPSS
  deriving DecidableEq, Repr

/-- The interior-mutable parts of `RandState`: the RNG (`rnd : Random`,
modelled as the stream of its raw draws) and the run-wide `seen` set used
by the global `unique` combinator. -/
structure RMut (σ : Type) where
  rng : List Nat
  seen : List σ := []
  deriving DecidableEq, Repr

/-- Embedding of `RandGen[T] = Callable[[RandState], T]`: a generator
reads the immutable environment, consumes RNG state, may grow the global
`seen` set, and may raise. -/
abbrev Gen (σ α : Type) := REnv → RMut σ → Except GenErr (α × RMut σ)

/-- Pop one raw draw off the RNG stream. -/
def RMut.tick (st : RMut σ) : RMut σ := { st with rng := st.rng.tail }

/-- The raw natural the next RNG call consumes (0 once the modelled
stream is exhausted). -/
def RMut.peek (st : RMut σ) : Nat := st.rng.headD 0

/-- Granularity of `Random.random()`: doubles in `[0,1)` are modelled as
rationals `k / 2^53`. -/
def floatDenom : Nat := 2 ^ 53

/-- `Random.random()`: one draw, yielding a rational in `[0,1)`. -/
def randFloat (st : RMut σ) : Rat × RMut σ :=
  (((st.peek % floatDenom : Nat) : Rat) / (floatDenom : Rat), st.tick)

/-- The guard `random() < prob`, computed as the equivalent integer
cross-multiplication `(k % 2^53) * prob.den < prob.num * 2^53` (the
theorem `floatLt_iff_randFloat_lt` below proves it equal to comparing
the rational `random()` value itself). -/
def floatLt (k : Nat) (prob : Rat) : Bool :=
  ((k % floatDenom : Nat) : Int) * (prob.den : Int) <
    prob.num * (floatDenom : Int)

/-- The rational 1/2 (`0.5` in the source), built in lowest terms so
that its numerator and denominator compute. -/
def ratHalf : Rat := ⟨1, 2, by decide, Nat.coprime_one_left 2⟩

/-- `Random.randint(lo, hi)`: uniform over the inclusive range, raising
`ValueError` when `lo > hi`. -/
def randint (lo hi : Int) (st : RMut σ) : Except GenErr (Int × RMut σ) :=
  if lo ≤ hi then
    .ok (lo + ((st.peek % ((hi - lo).toNat + 1) : Nat) : Int), st.tick)
  else
    .error .invalidRange

/-- `Random.choice(l)`: one draw picking index `k % l.length`; raises on
an empty sequence. -/
def randChoice (l : List α) (st : RMut σ) : Except GenErr (α × RMut σ) :=
  match l with
  | [] => .error .emptyChoice
  | a :: rest => .ok ((a :: rest).getD (st.peek % (a :: rest).length) a, st.tick)

/-- `gen.integer(min, max)` (`generators.py` lines 29-32). -/
def integer (min max : Int) : Gen σ Int := fun _ st => randint min max st

/-- `gen.interval(start, size)` (`generators.py` lines 35-39). -/
def interval (start size : Gen σ Int) : Gen σ (Int × Int) := fun env st => do
  let (mn, st) ← start env st
  let (sz, st) ← size env st
  .ok ((mn, mn + sz), st)

/-- `gen.boolean(prob)` (`generators.py` lines 48-51):
`random() < prob`. -/
def boolean (prob : Rat) : Gen σ Bool := fun _ st =>
  .ok (floatLt st.peek prob, st.tick)

/-- `gen.word()` (`generators.py` lines 54-57), parameterised by the
external vocabulary provider `wl` (`faker_wordlist`). -/
def word (wl : String → List String) : Gen σ String := fun env st =>
  randChoice (wl env.locale) st

/-- `gen.maybe(gen, prob)` (`generators.py` lines 94-100): one
`random()` draw, then the child only in the `random() < prob` branch. -/
def maybe (g : Gen σ α) (prob : Rat) : Gen σ (Option α) := fun env st =>
  if floatLt st.peek prob then do
    let (v, st) ← g env st.tick
    .ok (some v, st)
  else
    .ok (none, st.tick)

/-- `gen.choice(gens)` (`generators.py` lines 103-106): pick one child
generator uniformly, then delegate. -/
def choiceGens (gens : List (Gen σ α)) : Gen σ α := fun env st => do
  let (g, st) ← randChoice gens st
  g env st

/-- `gen.seq(gens)` (`generators.py` lines 72-75): invoke every child
once, in order. -/
def seqGens : List (Gen σ α) → Gen σ (List α)
  | [] => fun _ st => .ok ([], st)
  | g :: gs => fun env st => do
    let (v, st) ← g env st
    let (vs, st) ← seqGens gs env st
    .ok (v :: vs, st)

/-- `gen.mapper(gen, map_fn)` (`generators.py` lines 88-91). -/
def mapper (g : Gen σ α) (f : α → β) : Gen σ β := fun env st => do
  let (v, st) ← g env st
  .ok (f v, st)

/-- A `size` specification `int | Tuple[int, int]` as used by `batch`
and `joined_words`. -/
inductive Size where
  | fixed (n : Int)
  | range (lo hi : Int)
  deriving DecidableEq, Repr

/-- Resolve a `size` spec exactly as `batch` does: an `int` is used
directly (no draw), a tuple is fed to `randint` (one draw). -/
def resolveSize (sz : Size) (st : RMut σ) : Except GenErr (Int × RMut σ) :=
  match sz with
  | .fixed n => .ok (n, st)
  | .range lo hi => randint lo hi st

/-- Run a generator `n` times, threading state, collecting the results
(the list comprehension in `batch`). -/
def repeatGen (g : Gen σ α) : Nat → Gen σ (List α)
  | 0 => fun _ st => .ok ([], st)
  | n + 1 => fun env st => do
    let (v, st) ← g env st
    let (vs, st) ← repeatGen g n env st
    .ok (v :: vs, st)

/-- `gen.batch(gen, size, unique=False)` (`generators.py` lines 60-69),
non-unique flavour. -/
def batchPlain (g : Gen σ α) (size : Size) : Gen σ (List α) := fun env st => do
  let (n, st) ← resolveSize size st
  repeatGen g n.toNat env st

/-- The retry loop of `gen.local_unique` (`generators.py` lines 109-121)
with the private `seen` set explicit and the remaining attempts as fuel;
on exhaustion it raises with the full attempt budget, as the source
formats `state.max_unique_attempts` into its `RuntimeError`. -/
def localUniqueAux (g : Gen σ α) [DecidableEq α] (env : REnv) :
    Nat → List α → RMut σ → Except GenErr (α × List α × RMut σ)
  | 0, _, _ => .error (.uniquenessExhausted env.maxUniqueAttempts)
  | n + 1, seen, st =>
    match g env st with
    | .error e => .error e
    | .ok (v, st') =>
      if v ∈ seen then localUniqueAux g env n seen st'
      else .ok (v, v :: seen, st')

/-- One invocation of the closure `gen.local_unique(gen)` returns, with
its private `seen` set passed in and the updated set passed out.  A
freshly built closure starts from `[]`. -/
def localUniqueStep (g : Gen σ α) [DecidableEq α] (seen : List α) :
    REnv → RMut σ → Except GenErr (α × List α × RMut σ) := fun env st =>
  localUniqueAux g env env.maxUniqueAttempts seen st

/-- The retry loop of the global `gen.unique` (`generators.py` lines
124-134), testing and growing the run-wide `state.seen`. -/
def uniqueAux (g : Gen σ σ) [DecidableEq σ] (env : REnv) :
    Nat → RMut σ → Except GenErr (σ × RMut σ)
  | 0, _ => .error (.uniquenessExhausted env.maxUniqueAttempts)
  | n + 1, st =>
    match g env st with
    | .error e => .error e
    | .ok (v, st') =>
      if v ∈ st'.seen then uniqueAux g env n st'
      else .ok (v, { st' with seen := v :: st'.seen })

/-- `gen.unique(gen)` (`generators.py` lines 124-134). -/
def uniqueGen (g : Gen σ σ) [DecidableEq σ] : Gen σ σ := fun env st =>
  uniqueAux g env env.maxUniqueAttempts st

/-- Run the `local_unique(gen)` closure `k` times, threading its
private set (the element loop of `batch` with `unique=True`). -/
def repeatLocalUnique (g : Gen σ α) [DecidableEq α] (env : REnv) :
    Nat → List α → RMut σ → Except GenErr (List α × List α × RMut σ)
  | 0, seen, st => .ok ([], seen, st)
  | k + 1, seen, st => do
    let (v, seen, st) ← localUniqueStep g seen env st
    let (vs, seen, st) ← repeatLocalUnique g env k seen st
    .ok (v :: vs, seen, st)

/-- Body of `gen.batch(gen, size, unique=True)` with the private set of
the `local_unique` closure (allocated once at build time) explicit. -/
def batchUniqueStep (g : Gen σ α) [DecidableEq α] (size : Size)
    (seen : List α) (env : REnv) (st : RMut σ) :
    Except GenErr (List α × List α × RMut σ) := do
  let (n, st) ← resolveSize size st
  repeatLocalUnique g env n.toNat seen st

/-- The first invocation of a freshly built `gen.batch(gen, size,
unique=True)` closure: its private set starts empty. -/
def batchUniqueOnce (g : Gen σ α) [DecidableEq α] (size : Size) :
    Gen σ (List α) := fun env st => do
  let (v, _, st) ← batchUniqueStep g size [] env st
  .ok (v, st)

/-- `gen.batch(gen, size, unique)` restricted to a single invocation of
a fresh build (`generators.py` lines 60-69). -/
def batch (g : Gen σ α) [DecidableEq α] (size : Size) (uniq : Bool) :
    Gen σ (List α) :=
  if uniq then batchUniqueOnce g size else batchPlain g size

/-- Body of `Seq.build` with `unique=True` (`config.py` lines 174-182):
every child generator is wrapped in its own `local_unique` closure, so
the local state is one private set per child position. -/
def seqUniqueStep [DecidableEq α] :
    List (Gen σ α) → List (List α) → REnv → RMut σ →
      Except GenErr (List α × List (List α) × RMut σ)
  | [], _, _, st => .ok ([], [], st)
  | g :: gs, seens, env, st => do
    let (v, seen', st) ← localUniqueStep g (seens.headD []) env st
    let (vs, seens', st) ← seqUniqueStep gs seens.tail env st
    .ok (v :: vs, seen' :: seens', st)

/-! ## Domain model records (`models.py`) -/

/-- `models.IntegerFieldType`. -/
structure IntegerFieldType where
  required : Option Bool := none
  unique : Option Bool := none
  minimum : Option Int := none
  maximum : Option Int := none
  missingValues : Option (List String) := none
  deriving DecidableEq, Repr

/-- `models.NumberFieldType`.  The bounds slot is typed `float`; the
builder feeds it `randint` output, embedded here as the integer cast
into `ℚ`. -/
structure NumberFieldType where
  required : Option Bool := none
  unique : Option Bool := none
  minimum : Option Rat := none
  maximum : Option Rat := none
  missingValues : Option (List String) := none
  deriving DecidableEq, Repr

/-- `models.StringFieldType`. -/
structure StringFieldType where
  required : Option Bool := none
  unique : Option Bool := none
  minLength : Option Int := none
  maxLength : Option Int := none
  pattern : Option String := none
  missingValues : Option (List String) := none
  deriving DecidableEq, Repr

/-- `models.EnumIntegerLevel`: the `value` slot is `int | str` (missing
value names are appended to the integer run). -/
structure EnumIntegerLevel where
  value : Int ⊕ String
  label : Option String := none
  deriving DecidableEq, Repr

/-- `models.EnumIntegerFieldType`. -/
structure EnumIntegerFieldType where
  levels : List EnumIntegerLevel
  required : Option Bool := none
  unique : Option Bool := none
  ordered : Option Bool := none
  missingValues : Option (List String) := none
  deriving DecidableEq, Repr

/-- `models.EnumStringFieldType`. -/
structure EnumStringFieldType where
  levels : List String
  required : Option Bool := none
  unique : Option Bool := none
  ordered : Option Bool := none
  missingValues : Option (List String) := none
  deriving DecidableEq, Repr

/-! ## Word joiners and missing-value generators (`generators.py`) -/

/-- `gen.join_snake_case` (`generators.py` lines 148-149). -/
def join_snake_case (ws : List String) : String :=
  String.intercalate "_" (ws.map String.toLower)

/-- `gen.join_snake_case_caps` (`generators.py` lines 156-157). -/
def join_snake_case_caps (ws : List String) : String :=
  (join_snake_case ws).toUpper

/-- `gen.joined_words(joiner, size)` (`generators.py` lines 160-170):
resolve the word count, then draw that many (non-unique) words and join
them. -/
def joined_words (joiner : List String → String) (size : Size)
    (wl : String → List String) : Gen σ String := fun env st => do
  let (n, st) ← resolveSize size st
  let (ws, st) ← repeatGen (word wl) n.toNat env st
  .ok (joiner ws, st)

/-- `gen.enum_level_name()` (`generators.py` lines 191-194). -/
def enum_level_name (wl : String → List String) : Gen σ String :=
  joined_words join_snake_case_caps (.range 1 3) wl

/-- `gen.spss_missing_value()` (`generators.py` lines 221-224):
`str(randint(-1000, -1))`. -/
def spss_missing_value : Gen σ String :=
  mapper (integer (-1000) (-1)) toString

/-- `gen.stata_missing_value()` (`generators.py` lines 227-234): one of
`".a"` .. `".z"`. -/
def stata_missing_value : Gen σ String := fun _ st =>
  randChoice ((List.range 26).map fun i =>
    String.mk ['.', Char.ofNat (97 + i)]) st

/-- `gen.underscore_missing_value()` (`generators.py` lines 237-242). -/
def underscore_missing_value (wl : String → List String) : Gen σ String :=
  fun env st => do
    let (lab, st) ← enum_level_name wl env st
    .ok ("_" ++ lab ++ "_", st)

/-- `gen.missing_value(style)` (`generators.py` lines 245-261): use the
explicit style if given, else the context default.  (The `RandGen[str]`
style alternative is not modelled; no claim exercises it.) -/
def missing_value (style : Option MissingValueStyle)
    (wl : String → List String) : Gen σ String := fun env st =>
  match style.getD env.defaultMissingStyle with
  | .SPSS => spss_missing_value env st
  | .SATA => stata_missing_value env st
  | .UNDERSCORE => underscore_missing_value wl env st

/-! ## Field-type generators (`generators.py`) -/

/-- `gen.integer_field_type(...)` (`generators.py` lines 197-218).  The
two bound candidates are drawn first (`l1`, `l2`), then the record's
keyword arguments are evaluated left to right; when both candidates are
present the bounds are order-normalised with `min`/`max`. -/
def integer_field_type (required unique : Gen σ (Option Bool))
    (minimum maximum : Gen σ (Option Int))
    (missingValues : Gen σ (Option (List String))) :
    Gen σ IntegerFieldType := fun env st => do
  let (l1, st) ← minimum env st
  let (l2, st) ← maximum env st
  let (req, st) ← required env st
  let (uq, st) ← unique env st
  let (mv, st) ← missingValues env st
  .ok ({ required := req, unique := uq,
         minimum := match l1, l2 with
           | some a, some b => some (Min.min a b)
           | _, _ => l1,
         maximum := match l1, l2 with
           | some a, some b => some (Max.max a b)
           | _, _ => l2,
         missingValues := mv }, st)

/-- `gen.number_field_type(...)` (`generators.py` lines 298-313): the
independently drawn `minimum`/`maximum` are passed through verbatim —
unlike the integer and string variants there is no order
normalisation. -/
def number_field_type (required unique : Gen σ (Option Bool))
    (minimum maximum : Gen σ (Option Rat))
    (missingValues : Gen σ (Option (List String))) :
    Gen σ NumberFieldType := fun env st => do
  let (req, st) ← required env st
  let (uq, st) ← unique env st
  let (mn, st) ← minimum env st
  let (mx, st) ← maximum env st
  let (mv, st) ← missingValues env st
  .ok ({ required := req, unique := uq, minimum := mn, maximum := mx,
         missingValues := mv }, st)

/-- `gen.string_field_type(...)` (`generators.py` lines 320-345): like
the integer variant, `minLength`/`maxLength` are order-normalised when
both are present. -/
def string_field_type (required unique : Gen σ (Option Bool))
    (minLength maxLength : Gen σ (Option Int))
    (missingValues : Gen σ (Option (List String)))
    (pattern : Gen σ (Option String)) :
    Gen σ StringFieldType := fun env st => do
  let (l1, st) ← minLength env st
  let (l2, st) ← maxLength env st
  let (req, st) ← required env st
  let (uq, st) ← unique env st
  let (pat, st) ← pattern env st
  let (mv, st) ← missingValues env st
  .ok ({ required := req, unique := uq,
         minLength := match l1, l2 with
           | some a, some b => some (Min.min a b)
           | _, _ => l1,
         maxLength := match l1, l2 with
           | some a, some b => some (Max.max a b)
           | _, _ => l2,
         pattern := pat, missingValues := mv }, st)

/-- `gen.enum_string_field_type(...)` (`generators.py` lines 348-365). -/
def enum_string_field_type (levels : Gen σ (List String))
    (required unique ordered : Gen σ (Option Bool))
    (missingValues : Gen σ (Option (List String))) :
    Gen σ EnumStringFieldType := fun env st => do
  let (lv, st) ← levels env st
  let (req, st) ← required env st
  let (uq, st) ← unique env st
  let (od, st) ← ordered env st
  let (mv, st) ← missingValues env st
  .ok ({ levels := lv, required := req, unique := uq, ordered := od,
         missingValues := mv }, st)

/-- Python `range(a, b)` as a list of integers. -/
def intRange (a b : Int) : List Int :=
  (List.range (b - a).toNat).map fun i => a + (i : Int)

/-- The labelled branch of `enum_integer_field_type`: assign each level
value a label drawn through the shared `local_unique(label_name)`
closure, threading its private set. -/
def labelLevels (label_name : Gen σ String) :
    List (Int ⊕ String) → List String → REnv → RMut σ →
      Except GenErr (List EnumIntegerLevel × List String × RMut σ)
  | [], seen, _, st => .ok ([], seen, st)
  | v :: vs, seen, env, st => do
    let (lab, seen, st) ← localUniqueStep label_name seen env st
    let (rest, seen, st) ← labelLevels label_name vs seen env st
    .ok ({ value := v, label := some lab } :: rest, seen, st)

/-- `gen.enum_integer_field_type(...)` (`generators.py` lines 264-295)
with the private set of its build-time `local_unique(label_name)`
closure explicit.  `missingValues` is drawn first, then the value range;
levels are the integer run extended with any missing-value names; a
single coin flip against `no_label_prob` decides labelling for the whole
level set. -/
def enum_integer_field_type (value_range : Gen σ (Int × Int))
    (label_name : Gen σ String) (no_label_prob : Rat)
    (required unique ordered : Gen σ (Option Bool))
    (missingValues : Gen σ (Option (List String)))
    (labelSeen : List String) (env : REnv) (st : RMut σ) :
    Except GenErr (EnumIntegerFieldType × List String × RMut σ) := do
  let (mv, st) ← missingValues env st
  let (rng, st) ← value_range env st
  let values : List (Int ⊕ String) :=
    (intRange rng.1 rng.2).map Sum.inl ++ (mv.getD []).map Sum.inr
  let coin := st.peek
  let st := st.tick
  let (levels, labelSeen, st) ←
    if floatLt coin no_label_prob then
      .ok (values.map fun v => ({ value := v } : EnumIntegerLevel),
           labelSeen, st)
    else
      labelLevels label_name values labelSeen env st
  let (req, st) ← required env st
  let (uq, st) ← unique env st
  let (od, st) ← ordered env st
  .ok ({ levels := levels, required := req, unique := uq, ordered := od,
         missingValues := mv }, labelSeen, st)

/-! ## Built config generators (`config.py`) -/

/-- `Integer.build` (`config.py` lines 118-119). -/
def Integer_build (min max : Int) : Gen σ Int := integer min max

/-- The `maybe(boolean(p), 1 - undefined_prob)` pattern every field-type
builder uses for its optional boolean attributes. -/
def maybeBool (p undefined : Rat) : Gen σ (Option Bool) :=
  maybe (boolean p) (1 - undefined)

/-- `NumberFieldType.build` with the class's default parameters
(`config.py` lines 347-395): `required_prob = unique_prob =
undefined_prob = 0.5`, both bound ranges `(0, 1000)`,
`missing_value_name` defaulting to `MissingValueName` (i.e.
`gen.missing_value()`), `missing_value_length_max = 5`.  Restricted to
one invocation of a fresh build (the missing-values batch's private set
starts empty). -/
def builtNumberFieldTypeDefault (wl : String → List String) :
    Gen σ NumberFieldType :=
  number_field_type
    (maybeBool ratHalf ratHalf)
    (maybeBool ratHalf ratHalf)
    (maybe (mapper (integer 0 1000) fun n => (n : Rat)) (1 - ratHalf))
    (maybe (mapper (integer 0 1000) fun n => (n : Rat)) (1 - ratHalf))
    (maybe (batchUniqueOnce (missing_value none wl) (.range 0 5))
      (1 - ratHalf))

/-- The two-runs scenario of the determinism claim, as the source
actually behaves: the `seen` default of the `RandState` NamedTuple
(`generators.py` line 16) is a single `set()` evaluated once at class
creation, so every default-constructed `RandState` aliases the same set.
Run 1 starts with that (initially empty) set; run 2, built from a fresh
`Random(seed)` (same raw stream) but the same aliased default set,
starts from whatever run 1 left in it. -/
def twoRunsSharedDefaultSeen (g : Gen σ α) (env : REnv) (rng : List Nat) :
    Except GenErr α × Except GenErr α :=
  match g env { rng := rng, seen := [] } with
  | .error e => (.error e, (g env { rng := rng, seen := [] }).map Prod.fst)
  | .ok (v, st1) =>
    (.ok v, (g env { rng := rng, seen := st1.seen }).map Prod.fst)

/-- The two-runs scenario with genuinely independent contexts (what the
spec intends): each run gets its own empty `seen` set and the same raw
stream. -/
def twoRunsFresh (g : Gen σ α) (env : REnv) (rng : List Nat) :
    Except GenErr α × Except GenErr α :=
  ((g env { rng := rng, seen := [] }).map Prod.fst,
   (g env { rng := rng, seen := [] }).map Prod.fst)

/-! ## Type descriptors and `is_subset_type` (`config.py` lines 737-748) -/

/-- The nominal (non-generic) runtime classes that occur as return-type
descriptors.  `issubclass` on them is reflexive, with the one proper
relation `bool <: int`. -/
inductive PyClass where
  | strC
  | intC
  | floatC
  | boolC
  | noneC
  | tupleC
  | integerFieldTypeC
  | enumIntegerFieldTypeC
  | numberFieldTypeC
  | stringFieldTypeC
  | enumStringFieldTypeC
  deriving DecidableEq, Repr

/-- Python `issubclass` restricted to the nominal classes above. -/
def pySubclass (a b : PyClass) : Bool :=
  a = b || (a = .boolC && b = .intC)

mutual

/-- A runtime type descriptor: a plain class, a `typing.Union`, or a
parameterised generic alias such as `TupleSeq[T] = Tuple[T, ...]`
(origin class plus arguments).  `typing` caches subscriptions, so object
identity (`a is b`) on descriptors is modelled as structural equality. -/
inductive PyType where
  | nominal (c : PyClass)
  | union (args : PyTypeList)
  | generic (origin : PyClass) (args : PyTypeList)

/-- The argument list of a union or generic descriptor (a plain list,
kept mutual with `PyType` so that equality and recursion stay
structural). -/
inductive PyTypeList where
  | nil
  | cons (hd : PyType) (tl : PyTypeList)

end

mutual

/-- Structural decidable equality on descriptors. -/
def PyType.decEq : (a b : PyType) → Decidable (a = b)
  | .nominal a, .nominal b =>
    match decEq a b with
    | isTrue h => isTrue (h ▸ rfl)
    | isFalse h => isFalse fun hh => h (PyType.nominal.inj hh)
  | .union as, .union bs =>
    match PyTypeList.decEq as bs with
    | isTrue h => isTrue (h ▸ rfl)
    | isFalse h => isFalse fun hh => h (PyType.union.inj hh)
  | .generic oa as, .generic ob bs =>
    match decEq oa ob, PyTypeList.decEq as bs with
    | isTrue h1, isTrue h2 => isTrue (h1 ▸ h2 ▸ rfl)
    | isFalse h1, _ => isFalse fun hh => h1 (PyType.generic.inj hh).1
    | _, isFalse h2 => isFalse fun hh => h2 (PyType.generic.inj hh).2
  | .nominal _, .union _ => isFalse fun h => PyType.noConfusion h
  | .nominal _, .generic _ _ => isFalse fun h => PyType.noConfusion h
  | .union _, .nominal _ => isFalse fun h => PyType.noConfusion h
  | .union _, .generic _ _ => isFalse fun h => PyType.noConfusion h
  | .generic _ _, .nominal _ => isFalse fun h => PyType.noConfusion h
  | .generic _ _, .union _ => isFalse fun h => PyType.noConfusion h

/-- Structural decidable equality on descriptor lists. -/
def PyTypeList.decEq : (as bs : PyTypeList) → Decidable (as = bs)
  | .nil, .nil => isTrue rfl
  | .nil, .cons _ _ => isFalse fun h => PyTypeList.noConfusion h
  | .cons _ _, .nil => isFalse fun h => PyTypeList.noConfusion h
  | .cons a as, .cons b bs =>
    match PyType.decEq a b, PyTypeList.decEq as bs with
    | isTrue h1, isTrue h2 => isTrue (h1 ▸ h2 ▸ rfl)
    | isFalse h1, _ => isFalse fun hh => h1 (PyTypeList.cons.inj hh).1
    | _, isFalse h2 => isFalse fun hh => h2 (PyTypeList.cons.inj hh).2

end

instance : DecidableEq PyType := PyType.decEq

instance : DecidableEq PyTypeList := PyTypeList.decEq

/-- View a descriptor argument list as an ordinary list. -/
def PyTypeList.toList : PyTypeList → List PyType
  | .nil => []
  | .cons a as => a :: as.toList

/-- Build a descriptor argument list from an ordinary list. -/
def PyTypeList.ofList : List PyType → PyTypeList
  | [] => .nil
  | a :: as => .cons a (PyTypeList.ofList as)

mutual

/-- `is_subset_type(a, b)` (`config.py` lines 737-748).  The branches in
source order: identity; `a` a union (`all`); `b` a union (`any`); `a` a
parameterised generic (identity again, already known false); finally
`issubclass(a, b)` — which, when `b` is a parameterised generic, raises
`TypeError` ("Subscripted generics cannot be used with class and
instance checks"), modelled as the `.error` result. -/
def isSubsetType (a b : PyType) : Except Unit Bool :=
  if a = b then .ok true
  else
    match a, b with
    | .union args, b => allSubset args b
    | a, .union args => anySubset a args
    | .generic _ _, _ => .ok false
    | .nominal ca, .nominal cb => .ok (pySubclass ca cb)
    | .nominal _, .generic _ _ => .error ()
termination_by sizeOf a + sizeOf b

/-- Python's short-circuiting `all(is_subset_type(x, b) for x in args)`:
stops at the first `False` or the first raised exception. -/
def allSubset (args : PyTypeList) (b : PyType) : Except Unit Bool :=
  match args with
  | .nil => .ok true
  | .cons x xs =>
    match isSubsetType x b with
    | .error e => .error e
    | .ok false => .ok false
    | .ok true => allSubset xs b
termination_by sizeOf args + sizeOf b

/-- Python's short-circuiting `any(is_subset_type(a, x) for x in args)`:
stops at the first `True` or the first raised exception. -/
def anySubset (a : PyType) (args : PyTypeList) : Except Unit Bool :=
  match args with
  | .nil => .ok false
  | .cons x xs =>
    match isSubsetType a x with
    | .error e => .error e
    | .ok true => .ok true
    | .ok false => anySubset a xs
termination_by sizeOf a + sizeOf args

end

mutual

/-- `true` when a descriptor contains no parameterised generic, so
every recursive `is_subset_type` check on it returns instead of raising
`TypeError`. -/
def noGen : PyType → Bool
  | .nominal _ => true
  | .generic _ _ => false
  | .union args => noGenList args

/-- `noGen` over a union's argument list. -/
def noGenList : PyTypeList → Bool
  | .nil => true
  | .cons x xs => noGen x && noGenList xs

end

/-! ## Config variant tree, `return_type` and parsing (`config.py`) -/

/-- The claim-relevant subset of the `GenCfg` variant union
(`config.py` lines 704-729): `Word`, `Integer`, `Maybe`, `Choice`,
`Seq`, `Batch`, `Unique`. -/
inductive GenCfg where
  | word
  | integer (min max : Int)
  | maybe (prob : Rat) (child : GenCfg)
  | choice (children : List GenCfg)
  | seq (children : List GenCfg) (unique : Bool)
  | batch (child : GenCfg) (size : Size) (unique : Bool)
  | uniqueCfg (child : GenCfg)

/-- The member list of a descriptor, as `typing.Union` flattening sees
it. -/
def unionMembers : PyType → List PyType
  | .union args => args.toList
  | t => [t]

/-- `typing.Union[a, b]`: flatten nested unions, deduplicate keeping
first occurrences, collapse a singleton to its sole member. -/
def mkUnion (a b : PyType) : PyType :=
  match (unionMembers a ++ unionMembers b).eraseDups with
  | [t] => t
  | l => .union (PyTypeList.ofList l)

mutual

/-- The `return_type` property of each config variant (`config.py`).
`Choice.return_type` and `Seq.return_type` raise `ValueError` on an
empty child list (lines 144-145 and 165-166); the error is raised at
property-access time, not at parse time. -/
def returnType : GenCfg → Except String PyType
  | .word => .ok (.nominal .strC)
  | .integer _ _ => .ok (.nominal .intC)
  | .maybe _ c => do
    let t ← returnType c
    .ok (mkUnion t (.nominal .noneC))
  | .choice [] => .error "Choice must have at least one child"
  | .choice (c :: cs) => do
    let t0 ← returnType c
    returnTypeUnion t0 cs
  | .seq [] _ => .error "Seq must have at least one child"
  | .seq (c :: cs) _ => do
    let t0 ← returnType c
    let t ← returnTypeUnion t0 cs
    .ok (.generic .tupleC (.cons t .nil))
  | .batch c _ _ => do
    let t ← returnType c
    .ok (.generic .tupleC (.cons t .nil))
  | .uniqueCfg c => returnType c
termination_by cfg => sizeOf cfg

/-- The `t.Union` left fold over the remaining children's return types
used by `Choice.return_type` and `Seq.return_type`. -/
def returnTypeUnion (acc : PyType) : List GenCfg → Except String PyType
  | [] => .ok acc
  | c :: cs => do
    let t ← returnType c
    returnTypeUnion (mkUnion acc t) cs
termination_by cs => sizeOf cs

end

mutual

/-- A JSON/YAML-like raw configuration document (kept mutual with its
array and object spines so recursion stays structural). -/
inductive JVal where
  | jnull
  | jbool (b : Bool)
  | jint (n : Int)
  | jrat (q : Rat)
  | jstr (s : String)
  | jarr (elems : JArr)
  | jobj (fields : JObj)

/-- The element spine of a JSON array. -/
inductive JArr where
  | nil
  | cons (hd : JVal) (tl : JArr)

/-- The key/value spine of a JSON object. -/
inductive JObj where
  | nil
  | cons (key : String) (val : JVal) (tl : JObj)

end

mutual

/-- Size of a document (bounds the parser's recursion depth). -/
def jvalSize : JVal → Nat
  | .jarr elems => 1 + jarrSize elems
  | .jobj fields => 1 + jobjSize fields
  | _ => 1

/-- Size of an array spine. -/
def jarrSize : JArr → Nat
  | .nil => 0
  | .cons v tl => jvalSize v + jarrSize tl

/-- Size of an object spine. -/
def jobjSize : JObj → Nat
  | .nil => 0
  | .cons _ v tl => jvalSize v + jobjSize tl

end

/-- First value bound to a key in a JSON object. -/
def jLookup : JObj → String → Option JVal
  | .nil, _ => none
  | .cons k' v rest, k => if k' = k then some v else jLookup rest k

/-- Pydantic validation results for one document. -/
inductive ParseErr where
  | invalid
  deriving DecidableEq

/-- An optional integer field with a default (pydantic: absent key uses
the model default, a non-integer value fails validation). -/
def getIntD (fields : JObj) (k : String) (d : Int) : Except ParseErr Int :=
  match jLookup fields k with
  | none => .ok d
  | some (.jint n) => .ok n
  | some _ => .error .invalid

/-- An optional boolean field with a default. -/
def getBoolD (fields : JObj) (k : String) (d : Bool) :
    Except ParseErr Bool :=
  match jLookup fields k with
  | none => .ok d
  | some (.jbool b) => .ok b
  | some _ => .error .invalid

/-- An optional float field with a default (an integer literal coerces). -/
def getRatD (fields : JObj) (k : String) (d : Rat) : Except ParseErr Rat :=
  match jLookup fields k with
  | none => .ok d
  | some (.jrat q) => .ok q
  | some (.jint n) => .ok (n : Rat)
  | some _ => .error .invalid

/-- A `size` field: an integer or a two-element array. -/
def getSize (fields : JObj) (k : String) : Except ParseErr Size :=
  match jLookup fields k with
  | some (.jint n) => .ok (.fixed n)
  | some (.jarr (.cons (.jint lo) (.cons (.jint hi) .nil))) =>
    .ok (.range lo hi)
  | _ => .error .invalid

mutual

/-- `parse_gencfg` (`config.py` lines 732-734) on the embedded variant
subset, with fuel bounding the recursion depth (the top-level call
passes the document's size, which exceeds its depth, so the fuel never
runs out on a real document).  Pydantic tries the union members in
order; the `type` literal discriminates, extra keys are ignored, and a
document without a `type` key validates as the all-default first member
`Word`.  Children of `Choice`/`Seq`/`Maybe`/`Batch`/`Unique` are
`GenCfgProxy[t.Any]` fields, whose validator skips the
`is_subset_type` check for `Any`; in particular there is no
non-emptiness validation anywhere at parse time. -/
def parseGenCfgF : Nat → JVal → Except ParseErr GenCfg
  | 0, _ => .error .invalid
  | n + 1, j =>
    match j with
    | .jobj fields =>
      match jLookup fields "type" with
      | none => .ok .word
      | some (.jstr tag) =>
        if tag = "word" then .ok .word
        else if tag = "integer" then do
          let mn ← getIntD fields "min" 0
          let mx ← getIntD fields "max" 1000
          .ok (.integer mn mx)
        else if tag = "maybe" then do
          let p ← getRatD fields "prob" (1/2)
          match jLookup fields "child" with
          | some c => do
            let cc ← parseGenCfgF n c
            .ok (.maybe p cc)
          | none => .error .invalid
        else if tag = "choice" then
          match jLookup fields "children" with
          | some (.jarr elems) => do
            let cs ← parseChildrenF n elems
            .ok (.choice cs)
          | _ => .error .invalid
        else if tag = "seq" then
          match jLookup fields "children" with
          | some (.jarr elems) => do
            let cs ← parseChildrenF n elems
            let u ← getBoolD fields "unique" false
            .ok (.seq cs u)
          | _ => .error .invalid
        else if tag = "batch" then
          match jLookup fields "child" with
          | some c => do
            let cc ← parseGenCfgF n c
            let sz ← getSize fields "size"
            let u ← getBoolD fields "unique" false
            .ok (.batch cc sz u)
          | none => .error .invalid
        else if tag = "unique" then
          match jLookup fields "child" with
          | some c => do
            let cc ← parseGenCfgF n c
            .ok (.uniqueCfg cc)
          | none => .error .invalid
        else .error .invalid
      | some _ => .error .invalid
    | _ => .error .invalid

/-- Parse every element of a `children` array. -/
def parseChildrenF (n : Nat) : JArr → Except ParseErr (List GenCfg)
  | .nil => .ok []
  | .cons v tl => do
    let c ← parseGenCfgF n v
    let cs ← parseChildrenF n tl
    .ok (c :: cs)

end

/-- `parse_gencfg(raw)`: run the fuelled parser with the document's own
size (strictly larger than its nesting depth) as fuel. -/
def parseGenCfg (j : JVal) : Except ParseErr GenCfg :=
  parseGenCfgF (jvalSize j) j

/-! ## Verification instrumentation and concrete inputs -/

/-- Number of candidates the `local_unique` retry loop generates (1 per
loop iteration, mirroring `localUniqueAux`). -/
def localAttempts (g : Gen σ α) [DecidableEq α] (env : REnv) :
    Nat → List α → RMut σ → Nat
  | 0, _, _ => 0
  | n + 1, seen, st =>
    match g env st with
    | .error _ => 1
    | .ok (v, st') =>
      if v ∈ seen then 1 + localAttempts g env n seen st' else 1

/-- Number of candidates the global `unique` retry loop generates
(mirroring `uniqueAux`). -/
def uniqueAttempts (g : Gen σ σ) [DecidableEq σ] (env : REnv) :
    Nat → RMut σ → Nat
  | 0, _ => 0
  | n + 1, st =>
    match g env st with
    | .error _ => 1
    | .ok (v, st') =>
      if v ∈ st'.seen then 1 + uniqueAttempts g env n st' else 1

/-- `true` exactly on union descriptors (`get_origin(t) is Union`). -/
def PyType.isUnionB : PyType → Bool
  | .union _ => true
  | _ => false

/-- Integer bounds are ordered whenever both are present. -/
def boundsOrderedI (mn mx : Option Int) : Bool :=
  match mn, mx with
  | some a, some b => decide (a ≤ b)
  | _, _ => true

/-- Rational (float) bounds are ordered whenever both are present. -/
def boundsOrderedQ (mn mx : Option Rat) : Bool :=
  match mn, mx with
  | some a, some b => decide (a ≤ b)
  | _, _ => true

/-- A one-word vocabulary provider used for concrete runs. -/
def wlDemo : String → List String := fun _ => ["lorem"]

/-- A raw draw whose `random()` image `(2^53 - 1) / 2^53` is ≥ 1/2,
driving every `maybe` into its "absent" branch. -/
def bigDraw : Nat := 2 ^ 53 - 1

/-- RNG stream driving `builtNumberFieldTypeDefault` to
`required = unique = missingValues = None`, `minimum = 7`,
`maximum = 3`: draw order is required, unique, minimum (hit, then
`randint`), maximum (hit, then `randint`), missingValues. -/
def numberDemoStream : List Nat := [bigDraw, bigDraw, 0, 7, 0, 3, bigDraw]

/-- The generator built from `{"type": "unique", "child":
{"type": "integer", "min": 0, "max": 0}}`: `Unique.build` wraps
`Integer.build` in `gen.unique` (`config.py` lines 208-210). -/
def uniqueConstIntGen : Gen Int Int := uniqueGen (Integer_build 0 0)

/-- The raw document `{"type": "choice", "children": []}`. -/
def emptyChoiceDoc : JVal :=
  .jobj (.cons "type" (.jstr "choice") (.cons "children" (.jarr .nil) .nil))

/-- The raw document `{"type": "seq", "children": []}`. -/
def emptySeqDoc : JVal :=
  .jobj (.cons "type" (.jstr "seq") (.cons "children" (.jarr .nil) .nil))

/-- The raw document `{"type": "integer", "min": 5, "max": 5}`. -/
def integer55Doc : JVal :=
  .jobj (.cons "type" (.jstr "integer")
    (.cons "min" (.jint 5) (.cons "max" (.jint 5) .nil)))

/-- The descriptor `Union[TupleSeq[int], int]` (a union with a
parameterised generic member, as `Optional[TupleSeq[...]]`-style
declared types produce). -/
def genericUnion : PyType :=
  .union (.cons (.generic .tupleC (.cons (.nominal .intC) .nil))
    (.cons (.nominal .intC) .nil))

/-! ## Helper lemmas -/

@[simp] theorem exceptBind_ok (x : α) (f : α → Except ε β) :
    (Except.ok x >>= f) = f x := rfl

@[simp] theorem exceptBind_error (e : ε) (f : α → Except ε β) :
    ((Except.error e : Except ε α) >>= f) = Except.error e := rfl

@[simp] theorem exceptMap_ok (f : α → β) (x : α) :
    Except.map f (Except.ok x : Except ε α) = Except.ok (f x) := rfl

@[simp] theorem exceptMap_error (f : α → β) (e : ε) :
    Except.map f (Except.error e : Except ε α) = Except.error e := rfl

theorem floatDenom_pos : 0 < floatDenom := by
  norm_num [floatDenom]

theorem exceptBind_ok_inv {ε α β : Type} {x : Except ε α}
    {f : α → Except ε β} {b : β} (h : (x >>= f) = .ok b) :
    ∃ a, x = .ok a ∧ f a = .ok b := by
  cases x with
  | error e => simp at h
  | ok a => exact ⟨a, rfl, by simpa using h⟩

theorem ratHalf_eq : ratHalf = 1 / 2 := by
  rw [ratHalf, Rat.mk'_eq_divInt, Rat.divInt_eq_div]
  norm_num

theorem one_sub_ratHalf : (1 : Rat) - ratHalf = ratHalf := by
  rw [ratHalf, Rat.mk'_eq_divInt, Rat.divInt_eq_div]
  norm_num

theorem randFloat_fst_nonneg (st : RMut σ) : 0 ≤ (randFloat st).1 := by
  simp only [randFloat]
  positivity

theorem randFloat_fst_lt_one (st : RMut σ) : (randFloat st).1 < 1 := by
  simp only [randFloat]
  rw [div_lt_one (by exact_mod_cast floatDenom_pos)]
  exact_mod_cast Nat.mod_lt _ floatDenom_pos

theorem floatLt_iff_randFloat_lt (st : RMut σ) (p : Rat) :
    floatLt st.peek p = true ↔ (randFloat st).1 < p := by
  have hD : (0 : Rat) < ((floatDenom : Nat) : Rat) := by
    exact_mod_cast floatDenom_pos
  have hden : (0 : Rat) < ((p.den : Nat) : Rat) := by
    exact_mod_cast p.pos
  have hpd : p * ((p.den : Nat) : Rat) = ((p.num : Int) : Rat) := by
    nth_rewrite 1 [← Rat.num_div_den p]
    exact div_mul_cancel₀ _ (ne_of_gt hden)
  simp only [floatLt, randFloat, decide_eq_true_eq]
  rw [div_lt_iff hD, ← mul_lt_mul_right hden, mul_right_comm, hpd]
  norm_cast
  constructor
  · intro h
    have h2 : ((((st.peek % floatDenom * p.den : Nat) : Int)) : Rat) <
        ((p.num * ((floatDenom : Nat) : Int) : Int) : Rat) :=
      Int.cast_lt.mpr h
    rwa [Int.cast_natCast] at h2
  · intro h
    have h2 : ((((st.peek % floatDenom * p.den : Nat) : Int)) : Rat) <
        ((p.num * ((floatDenom : Nat) : Int) : Int) : Rat) := by
      rw [Int.cast_natCast]
      exact h
    exact Int.cast_lt.mp h2

theorem floatLt_zero (k : Nat) : floatLt k 0 = false := by
  simp only [floatLt, decide_eq_false_iff_not, not_lt]
  have h0 : ((0 : Rat)).num = 0 := rfl
  rw [h0]
  positivity

theorem floatLt_one (k : Nat) : floatLt k 1 = true := by
  simp only [floatLt, decide_eq_true_eq]
  have h1 : ((1 : Rat)).num = 1 := rfl
  have h2 : ((1 : Rat)).den = 1 := rfl
  rw [h1, h2]
  have := Nat.mod_lt k floatDenom_pos
  simp
  omega

theorem randChoice_ok_of_ne_nil (l : List α) (hl : l ≠ []) (st : RMut σ) :
    ∃ v st', randChoice l st = .ok (v, st') ∧ v ∈ l := by
  cases l with
  | nil => exact absurd rfl hl
  | cons a rest =>
    refine ⟨_, _, rfl, ?_⟩
    rw [List.getD_eq_get?]
    cases h : (a :: rest).get? (st.peek % (a :: rest).length) with
    | none => exact List.mem_cons_self a rest
    | some x =>
      simp only [Option.getD_some]
      exact List.get?_mem h

theorem randChoice_mem (l : List α) (st : RMut σ) (v : α) (st' : RMut σ)
    (h : randChoice l st = .ok (v, st')) : v ∈ l := by
  cases l with
  | nil => simp [randChoice] at h
  | cons a rest =>
    simp only [randChoice, Except.ok.injEq, Prod.mk.injEq] at h
    obtain ⟨hv, -⟩ := h
    subst hv
    rw [List.getD_eq_get?]
    cases hx : (a :: rest).get? (st.peek % (a :: rest).length) with
    | none => exact List.mem_cons_self a rest
    | some x =>
      simp only [Option.getD_some]
      exact List.get?_mem hx

/-! ## Claim theorems -/

/-- Claim C7: the generator built from an `Integer` configuration with
`min ≤ max` always returns a value in the inclusive range `[min, max]`
(first conjunct), every value of the range is attained for some RNG
state (second conjunct, the support of the uniform draw), parsing
`{"type": "integer", "min": 5, "max": 5}` yields the `Integer 5 5`
node (third conjunct), and building and invoking that node yields `5`
for every RNG state (fourth conjunct). -/
theorem C7_integer_range_roundtrip :
    (∀ (σ : Type) (lo hi : Int) (env : REnv) (st : RMut σ), lo ≤ hi →
      ∃ v st', integer lo hi env st = .ok (v, st') ∧ lo ≤ v ∧ v ≤ hi)
    ∧ (∀ (σ : Type) (lo hi v : Int) (env : REnv), lo ≤ v → v ≤ hi →
      ∃ st st' : RMut σ, integer lo hi env st = .ok (v, st'))
    ∧ parseGenCfg integer55Doc = .ok (.integer 5 5)
    ∧ (∀ (σ : Type) (env : REnv) (st : RMut σ),
        Integer_build 5 5 env st = .ok (5, st.tick)) := by
  refine ⟨?_, ?_, ?_, ?_⟩
  · intro σ lo hi env st h
    refine ⟨lo + ((st.peek % ((hi - lo).toNat + 1) : Nat) : Int), st.tick,
      ?_, ?_, ?_⟩
    · simp only [integer, randint, if_pos h]
    · exact le_add_of_nonneg_right (Int.natCast_nonneg _)
    · have hm : st.peek % ((hi - lo).toNat + 1) ≤ (hi - lo).toNat :=
        Nat.lt_succ_iff.mp (Nat.mod_lt _ (Nat.succ_pos _))
      omega
  · intro σ lo hi v env h1 h2
    refine ⟨⟨[(v - lo).toNat], []⟩, ⟨[], []⟩, ?_⟩
    simp only [integer, randint, if_pos (le_trans h1 h2), RMut.peek,
      List.headD_cons]
    have hmod : (v - lo).toNat % ((hi - lo).toNat + 1) = (v - lo).toNat :=
      Nat.mod_eq_of_lt (by omega)
    rw [hmod]
    have hv : lo + ((v - lo).toNat : Int) = v := by omega
    rw [hv]
    rfl
  · simp only [parseGenCfg, integer55Doc, jvalSize, jobjSize, jarrSize,
      parseGenCfgF, jLookup, getIntD]
    rfl
  · intro σ env st
    simp [Integer_build, integer, randint, Nat.mod_one]

/-- Witness for C7: concrete instances of the range and attainability
conjuncts. -/
theorem C7_integer_range_roundtrip_witness :
    (∃ v st', integer 3 7 {} ({ rng := [9] } : RMut Int) = .ok (v, st') ∧
      3 ≤ v ∧ v ≤ 7)
    ∧ (∃ st st' : RMut Int, integer 2 9 {} st = .ok (4, st')) :=
  ⟨C7_integer_range_roundtrip.1 Int 3 7 {} { rng := [9] } (by decide),
   C7_integer_range_roundtrip.2.1 Int 2 9 4 {} (by decide) (by decide)⟩

/-- Claim C8: a `Maybe` generator with `prob = 0.0` returns the absent
value (`None`) on every invocation and every RNG state, consuming
exactly the one `random()` draw; with `prob = 1.0` it always returns
the child's value, and with a `Word` child that value is an element of
the vocabulary provider's list for the context's locale. -/
theorem C8_maybe_prob_extremes :
    (∀ (σ α : Type) (g : Gen σ α) (env : REnv) (st : RMut σ),
      maybe g 0 env st = .ok (none, st.tick))
    ∧ (∀ (σ : Type) (wl : String → List String) (env : REnv) (st : RMut σ),
        wl env.locale ≠ [] →
        ∃ w st', maybe (word wl) 1 env st = .ok (some w, st') ∧
          w ∈ wl env.locale) := by
  constructor
  · intro σ α g env st
    simp [maybe, floatLt_zero]
  · intro σ wl env st h
    obtain ⟨w, st', hrun, hmem⟩ :=
      randChoice_ok_of_ne_nil (wl env.locale) h st.tick
    refine ⟨w, st', ?_, hmem⟩
    simp only [maybe, floatLt_one, if_true]
    simp only [word, hrun]
    rfl

/-- Witness for C8: the `prob = 1.0` conjunct at a concrete one-word
vocabulary, locale and RNG state. -/
theorem C8_maybe_prob_extremes_witness :
    ∃ w st', maybe (word wlDemo) 1 {} ({ rng := [] } : RMut Int) =
      .ok (some w, st') ∧ w ∈ wlDemo ({} : REnv).locale :=
  C8_maybe_prob_extremes.2 Int wlDemo {} { rng := [] } (by simp [wlDemo])

/-- Counterexample to claim C2 as stated: the structurally valid but
semantically empty document `{"type": "choice", "children": []}` parses
successfully — `parse_gencfg` yields a `Choice` node with zero children
instead of failing at parse time. -/
theorem C2_empty_choice_parses_counterexample :
    parseGenCfg emptyChoiceDoc = .ok (.choice []) := by
  simp [parseGenCfg, emptyChoiceDoc, jvalSize, jobjSize, jarrSize,
    parseGenCfgF, jLookup, parseChildrenF]

/-- Claim C2 as amended: a `Choice` or `Seq` with zero children parses
successfully; the "must have at least one child" `ValueError` is raised
lazily, at `return_type` access time, and the generator built from an
empty `Choice` fails only when invoked (`random.choice` of an empty
sequence). -/
theorem C2_empty_rejected_lazily :
    parseGenCfg emptyChoiceDoc = .ok (.choice [])
    ∧ parseGenCfg emptySeqDoc = .ok (.seq [] false)
    ∧ returnType (.choice []) = .error "Choice must have at least one child"
    ∧ (∀ u, returnType (.seq [] u) = .error "Seq must have at least one child")
    ∧ (∀ (σ α : Type) (env : REnv) (st : RMut σ),
        choiceGens ([] : List (Gen σ α)) env st = .error .emptyChoice) := by
  refine ⟨?_, ?_, ?_, ?_, ?_⟩
  · simp [parseGenCfg, emptyChoiceDoc, jvalSize, jobjSize, jarrSize,
      parseGenCfgF, jLookup, parseChildrenF]
  · simp [parseGenCfg, emptySeqDoc, jvalSize, jobjSize, jarrSize,
      parseGenCfgF, jLookup, parseChildrenF, getBoolD]
  · simp [returnType]
  · intro u
    simp [returnType]
  · intro σ α env st
    rfl

theorem uniqueConstIntGen_candidate (st : RMut Int) :
    Integer_build 0 0 {} st = .ok (0, st.tick) := by
  simp [Integer_build, integer, randint, Nat.mod_one]

theorem uniqueAux_const_stuck :
    ∀ (n : Nat) (st : RMut Int), 0 ∈ st.seen →
      uniqueAux (Integer_build 0 0) {} n st =
        .error (.uniquenessExhausted 1000) := by
  intro n
  induction n with
  | zero => intro st _; rfl
  | succ k ih =>
    intro st hmem
    simp only [uniqueAux, uniqueConstIntGen_candidate st]
    rw [if_pos (show (0 : Int) ∈ st.tick.seen from hmem)]
    exact ih st.tick hmem

theorem uniqueAux_const_fresh (n : Nat) (st : RMut Int)
    (h : (0 : Int) ∉ st.seen) :
    uniqueAux (Integer_build 0 0) {} (n + 1) st =
      .ok (0, { st.tick with seen := 0 :: st.tick.seen }) := by
  simp only [uniqueAux, uniqueConstIntGen_candidate st]
  rw [if_neg (show ¬ (0 : Int) ∈ st.tick.seen from h)]

theorem uniqueConstIntGen_first_run :
    uniqueConstIntGen {} { rng := [], seen := [] } =
      .ok (0, { rng := [], seen := [0] }) := by
  show uniqueAux (Integer_build 0 0) {} 1000 { rng := [], seen := [] } = _
  rw [show (1000 : Nat) = 999 + 1 from rfl]
  exact uniqueAux_const_fresh 999 { rng := [], seen := [] } (by simp)

/-- Claim C3, as the code actually behaves (the claim names the intended
design; the code's `RandState` NamedTuple defaults break it): with
genuinely independent contexts two runs of the same generator over the
same raw stream are identical (first conjunct, the intended property) —
but the `seen: Set[Any] = set()` default of `RandState` is evaluated
once at class-creation time, so two default-constructed contexts alias
one `seen` set.  Running the generator built from `{"type": "unique",
"child": {"type": "integer", "min": 0, "max": 0}}` twice, each time
against `RandState(rnd=Random(seed))`, the first run yields `0` while
the second — whose aliased `seen` already holds `0` — exhausts its 1000
retries and raises, so the two "independent" runs differ. -/
theorem C3_shared_default_seen_breaks_determinism :
    (∀ (σ α : Type) (g : Gen σ α) (env : REnv) (rng : List Nat),
      (twoRunsFresh g env rng).1 = (twoRunsFresh g env rng).2)
    ∧ twoRunsSharedDefaultSeen uniqueConstIntGen {} [] =
        (.ok 0, .error (.uniquenessExhausted 1000))
    ∧ (twoRunsSharedDefaultSeen uniqueConstIntGen {} []).1 ≠
        (twoRunsSharedDefaultSeen uniqueConstIntGen {} []).2 := by
  have hshared : twoRunsSharedDefaultSeen uniqueConstIntGen {} [] =
      (.ok 0, .error (.uniquenessExhausted 1000)) := by
    have hrun2 : uniqueConstIntGen {} { rng := [], seen := [0] } =
        .error (.uniquenessExhausted 1000) :=
      uniqueAux_const_stuck 1000 { rng := [], seen := [0] } (by simp)
    simp only [twoRunsSharedDefaultSeen, uniqueConstIntGen_first_run, hrun2]
    rfl
  refine ⟨fun σ α g env rng => rfl, hshared, ?_⟩
  intro hcontra
  rw [hshared] at hcontra
  exact Except.noConfusion hcontra

theorem seqUnique_first_invocation {σ α : Type} [DecidableEq α]
    (gens : List (Gen σ α)) (env : REnv) (h : 1 ≤ env.maxUniqueAttempts) :
    ∀ st : RMut σ,
      (seqUniqueStep gens (List.replicate gens.length []) env st).map
        (fun r => (r.1, r.2.2)) = seqGens gens env st := by
  obtain ⟨k, hk⟩ : ∃ k, env.maxUniqueAttempts = k + 1 :=
    ⟨env.maxUniqueAttempts - 1, by omega⟩
  induction gens with
  | nil => intro st; rfl
  | cons g gs ih =>
    intro st
    simp only [List.length_cons, List.replicate_succ, seqUniqueStep,
      List.headD_cons, List.tail_cons, localUniqueStep, hk, localUniqueAux]
    cases hg : g env st with
    | error e => simp [seqGens, hg]
    | ok p =>
      obtain ⟨v, st'⟩ := p
      simp only [List.not_mem_nil, if_false]
      cases hrec : seqUniqueStep gs (List.replicate gs.length []) env st' with
      | error e =>
        have hq := ih st'
        rw [hrec] at hq
        simp [seqGens, hg, hrec, ← hq]
      | ok q =>
        have hq := ih st'
        rw [hrec] at hq
        simp [seqGens, hg, hrec, ← hq]

/-- Claim C10: `Seq.build` with `unique=True` wraps each child in its
own `local_unique` closure with its own private set, so on a first
invocation the uniqueness wrappers have no effect at all — the output
equals that of the plain (non-unique) `Seq` (first conjunct); in
particular two sibling children producing equal values yield an output
tuple with duplicate elements and no error, as the concrete
`Seq(unique=True)` of two `Integer(min=5, max=5)` children shows
(second and third conjuncts). -/
theorem C10_seq_unique_per_position :
    (∀ (σ α : Type) (inst : DecidableEq α) (gens : List (Gen σ α))
        (env : REnv) (st : RMut σ), 1 ≤ env.maxUniqueAttempts →
      (seqUniqueStep gens (List.replicate gens.length []) env st).map
        (fun r => (r.1, r.2.2)) = seqGens gens env st)
    ∧ seqUniqueStep [Integer_build 5 5, Integer_build 5 5]
        (List.replicate 2 []) {} ({ rng := [] } : RMut Int) =
        .ok ([5, 5], [[5], [5]], { rng := [] })
    ∧ ¬ ([5, 5] : List Int).Nodup := by
  refine ⟨?_, rfl, by decide⟩
  intro σ α inst gens env st h
  exact seqUnique_first_invocation gens env h st

/-- Witness for C10: the first-invocation equivalence at a concrete
one-child sequence, environment and RNG state. -/
theorem C10_seq_unique_per_position_witness :
    (seqUniqueStep [Integer_build 7 7] (List.replicate 1 []) {}
        ({ rng := [] } : RMut Int)).map (fun r => (r.1, r.2.2)) =
      seqGens [Integer_build 7 7] {} { rng := [] } :=
  C10_seq_unique_per_position.1 Int Int inferInstance [Integer_build 7 7]
    {} { rng := [] } (by decide)

theorem localUniqueAux_ok {σ α : Type} [DecidableEq α] (g : Gen σ α)
    (env : REnv) :
    ∀ (n : Nat) (seen : List α) (st : RMut σ) v seen' st',
      localUniqueAux g env n seen st = .ok (v, seen', st') →
      v ∉ seen ∧ seen' = v :: seen := by
  intro n
  induction n with
  | zero => intro seen st v seen' st' h; simp [localUniqueAux] at h
  | succ k ih =>
    intro seen st v seen' st' h
    simp only [localUniqueAux] at h
    split at h
    · exact absurd h (by simp)
    · rename_i w st'' heq
      split at h
      · exact ih seen st'' v seen' st' h
      · rename_i hw
        obtain ⟨hv, hs, -⟩ := by simpa using h
        subst hv
        exact ⟨hw, hs.symm⟩

theorem localUniqueStep_ok {σ α : Type} [DecidableEq α] (g : Gen σ α)
    (seen : List α) (env : REnv) (st : RMut σ) (v : α) (seen' : List α)
    (st' : RMut σ) (h : localUniqueStep g seen env st = .ok (v, seen', st')) :
    v ∉ seen ∧ seen' = v :: seen :=
  localUniqueAux_ok g env env.maxUniqueAttempts seen st v seen' st' h

theorem localUniqueAux_total_cases {σ α : Type} [DecidableEq α]
    (g : Gen σ α) (env : REnv)
    (hg : ∀ st' : RMut σ, ∃ v st'', g env st' = .ok (v, st'')) :
    ∀ (n : Nat) (seen : List α) (st : RMut σ),
      (∃ v st', localUniqueAux g env n seen st = .ok (v, v :: seen, st') ∧
        v ∉ seen)
      ∨ localUniqueAux g env n seen st =
          .error (.uniquenessExhausted env.maxUniqueAttempts) := by
  intro n
  induction n with
  | zero => intro seen st; exact Or.inr rfl
  | succ k ih =>
    intro seen st
    obtain ⟨v, st'', hgst⟩ := hg st
    by_cases hv : v ∈ seen
    · rcases ih seen st'' with h | h
      · exact Or.inl (by simpa [localUniqueAux, hgst, if_pos hv] using h)
      · exact Or.inr (by simpa [localUniqueAux, hgst, if_pos hv] using h)
    · exact Or.inl ⟨v, st'', by simp [localUniqueAux, hgst, if_neg hv], hv⟩

theorem localAttempts_le {σ α : Type} [DecidableEq α] (g : Gen σ α)
    (env : REnv) :
    ∀ (n : Nat) (seen : List α) (st : RMut σ),
      localAttempts g env n seen st ≤ n := by
  intro n
  induction n with
  | zero => intro seen st; simp [localAttempts]
  | succ k ih =>
    intro seen st
    simp only [localAttempts]
    split
    · omega
    · split
      · rename_i v st' heq hv
        have := ih seen st'
        omega
      · omega

theorem localAttempts_exhaust {σ α : Type} [DecidableEq α] (g : Gen σ α)
    (env : REnv)
    (hg : ∀ st' : RMut σ, ∃ v st'', g env st' = .ok (v, st'')) :
    ∀ (n : Nat) (seen : List α) (st : RMut σ),
      localUniqueAux g env n seen st =
        .error (.uniquenessExhausted env.maxUniqueAttempts) →
      localAttempts g env n seen st = n := by
  intro n
  induction n with
  | zero => intro seen st _; rfl
  | succ k ih =>
    intro seen st h
    obtain ⟨v, st'', hgst⟩ := hg st
    by_cases hv : v ∈ seen
    · rw [show localAttempts g env (k + 1) seen st =
          1 + localAttempts g env k seen st'' by
        simp [localAttempts, hgst, if_pos hv]]
      rw [show localUniqueAux g env (k + 1) seen st =
          localUniqueAux g env k seen st'' by
        simp [localUniqueAux, hgst, if_pos hv]] at h
      rw [ih seen st'' h]
      omega
    · rw [show localUniqueAux g env (k + 1) seen st =
          .ok (v, v :: seen, st'') by
        simp [localUniqueAux, hgst, if_neg hv]] at h
      exact absurd h (by simp)

theorem uniqueAux_total_cases {σ : Type} [DecidableEq σ] (g : Gen σ σ)
    (env : REnv)
    (hg : ∀ st' : RMut σ, ∃ v st'', g env st' = .ok (v, st''))
    (hpres : ∀ (st' : RMut σ) v st'', g env st' = .ok (v, st'') →
      st''.seen = st'.seen) :
    ∀ (n : Nat) (st : RMut σ),
      (∃ v st', uniqueAux g env n st = .ok (v, st') ∧ v ∉ st.seen ∧
        st'.seen = v :: st.seen)
      ∨ uniqueAux g env n st =
          .error (.uniquenessExhausted env.maxUniqueAttempts) := by
  intro n
  induction n with
  | zero => intro st; exact Or.inr rfl
  | succ k ih =>
    intro st
    obtain ⟨v, st'', hgst⟩ := hg st
    have hseen : st''.seen = st.seen := hpres st v st'' hgst
    by_cases hv : v ∈ st''.seen
    · rcases ih st'' with ⟨w, st3, hrun, hw, hs⟩ | h
      · refine Or.inl ⟨w, st3, ?_, ?_, ?_⟩
        · simpa [uniqueAux, hgst, if_pos hv] using hrun
        · rw [← hseen]; exact hw
        · rw [hs, hseen]
      · exact Or.inr (by simpa [uniqueAux, hgst, if_pos hv] using h)
    · refine Or.inl ⟨v, { st'' with seen := v :: st''.seen }, ?_, ?_, ?_⟩
      · simp [uniqueAux, hgst, if_neg hv]
      · rw [← hseen]; exact hv
      · simp [hseen]

theorem uniqueAttempts_le {σ : Type} [DecidableEq σ] (g : Gen σ σ)
    (env : REnv) :
    ∀ (n : Nat) (st : RMut σ), uniqueAttempts g env n st ≤ n := by
  intro n
  induction n with
  | zero => intro st; simp [uniqueAttempts]
  | succ k ih =>
    intro st
    simp only [uniqueAttempts]
    split
    · omega
    · split
      · rename_i v st' heq hv
        have := ih st'
        omega
      · omega

theorem uniqueAttempts_exhaust {σ : Type} [DecidableEq σ] (g : Gen σ σ)
    (env : REnv)
    (hg : ∀ st' : RMut σ, ∃ v st'', g env st' = .ok (v, st'')) :
    ∀ (n : Nat) (st : RMut σ),
      uniqueAux g env n st =
        .error (.uniquenessExhausted env.maxUniqueAttempts) →
      uniqueAttempts g env n st = n := by
  intro n
  induction n with
  | zero => intro st _; rfl
  | succ k ih =>
    intro st h
    obtain ⟨v, st'', hgst⟩ := hg st
    by_cases hv : v ∈ st''.seen
    · rw [show uniqueAttempts g env (k + 1) st =
          1 + uniqueAttempts g env k st'' by
        simp [uniqueAttempts, hgst, if_pos hv]]
      rw [show uniqueAux g env (k + 1) st = uniqueAux g env k st'' by
        simp [uniqueAux, hgst, if_pos hv]] at h
      rw [ih st'' h]
      omega
    · rw [show uniqueAux g env (k + 1) st =
          .ok (v, { st'' with seen := v :: st''.seen }) by
        simp [uniqueAux, hgst, if_neg hv]] at h
      exact absurd h (by simp)

/-- Claim C4: for both uniqueness combinators, an invocation with a
total candidate generator either returns a candidate absent from the
relevant set, with that candidate inserted into the set (the private set
for `local_unique`, `state.seen` for `unique`), or fails with the
uniqueness-exhaustion error; the number of candidate generations never
exceeds `max_unique_attempts`, and on the exhaustion failure it equals
exactly `max_unique_attempts` — so an invocation always terminates. -/
theorem C4_unique_retry_contract :
    ∀ (σ α : Type) (instA : DecidableEq α) (instS : DecidableEq σ)
      (g : Gen σ α) (gg : Gen σ σ) (env : REnv) (seen : List α)
      (st : RMut σ),
      (∀ st' : RMut σ, ∃ v st'', g env st' = .ok (v, st'')) →
      (∀ st' : RMut σ, ∃ v st'', gg env st' = .ok (v, st'')) →
      (∀ (st' : RMut σ) v st'', gg env st' = .ok (v, st'') →
        st''.seen = st'.seen) →
      ((∃ v st', localUniqueStep g seen env st = .ok (v, v :: seen, st') ∧
          v ∉ seen)
        ∨ localUniqueStep g seen env st =
            .error (.uniquenessExhausted env.maxUniqueAttempts))
      ∧ localAttempts g env env.maxUniqueAttempts seen st ≤
          env.maxUniqueAttempts
      ∧ (localUniqueStep g seen env st =
            .error (.uniquenessExhausted env.maxUniqueAttempts) →
          localAttempts g env env.maxUniqueAttempts seen st =
            env.maxUniqueAttempts)
      ∧ ((∃ v st', uniqueGen gg env st = .ok (v, st') ∧ v ∉ st.seen ∧
          st'.seen = v :: st.seen)
        ∨ uniqueGen gg env st =
            .error (.uniquenessExhausted env.maxUniqueAttempts))
      ∧ uniqueAttempts gg env env.maxUniqueAttempts st ≤
          env.maxUniqueAttempts
      ∧ (uniqueGen gg env st =
            .error (.uniquenessExhausted env.maxUniqueAttempts) →
          uniqueAttempts gg env env.maxUniqueAttempts st =
            env.maxUniqueAttempts) := by
  intro σ α instA instS g gg env seen st hg hgg hpres
  refine ⟨?_, ?_, ?_, ?_, ?_, ?_⟩
  · exact localUniqueAux_total_cases g env hg env.maxUniqueAttempts seen st
  · exact localAttempts_le g env env.maxUniqueAttempts seen st
  · exact localAttempts_exhaust g env hg env.maxUniqueAttempts seen st
  · exact uniqueAux_total_cases gg env hgg hpres env.maxUniqueAttempts st
  · exact uniqueAttempts_le gg env env.maxUniqueAttempts st
  · exact uniqueAttempts_exhaust gg env hgg env.maxUniqueAttempts st

/-- Witness for C4: the contract at the constant `integer(0, 0)`
candidate generator, a concrete environment and RNG state. -/
theorem C4_unique_retry_contract_witness :
    ((∃ v st', localUniqueStep (integer 0 0) [] {}
        ({ rng := [] } : RMut Int) = .ok (v, v :: [], st') ∧
        v ∉ ([] : List Int))
      ∨ localUniqueStep (integer 0 0) [] {} ({ rng := [] } : RMut Int) =
          .error (.uniquenessExhausted ({} : REnv).maxUniqueAttempts))
    ∧ localAttempts (integer 0 0) {} ({} : REnv).maxUniqueAttempts []
        ({ rng := [] } : RMut Int) ≤ ({} : REnv).maxUniqueAttempts := by
  have h := C4_unique_retry_contract Int Int inferInstance inferInstance
    (integer 0 0) (integer 0 0) {} [] { rng := [] }
    (fun st' => ⟨_, _, rfl⟩) (fun st' => ⟨_, _, rfl⟩)
    (fun st' v st'' h => by
      simp only [integer, randint] at h
      rw [if_pos (le_refl (0 : Int))] at h
      obtain ⟨-, h2⟩ := by simpa using h
      rw [← h2]
      rfl)
  exact ⟨h.1, h.2.1⟩

theorem repeatLocalUnique_ok {σ α : Type} [DecidableEq α] (g : Gen σ α)
    (env : REnv) :
    ∀ (k : Nat) (seen : List α) (st : RMut σ) vs seen' st',
      repeatLocalUnique g env k seen st = .ok (vs, seen', st') →
      vs.Nodup ∧ vs.length = k ∧ (∀ x ∈ vs, x ∉ seen) ∧
        seen' = vs.reverse ++ seen := by
  intro k
  induction k with
  | zero =>
    intro seen st vs seen' st' h
    obtain ⟨h1, h2, -⟩ := by simpa [repeatLocalUnique] using h
    subst h1; subst h2
    simp
  | succ m ih =>
    intro seen st vs seen' st' h
    simp only [repeatLocalUnique] at h
    cases hstep : localUniqueStep g seen env st with
    | error e => rw [hstep] at h; exact absurd h (by simp)
    | ok p =>
      obtain ⟨v, seen1, st1⟩ := p
      rw [hstep] at h
      obtain ⟨hv, hseen1⟩ := localUniqueStep_ok g seen env st v seen1 st1 hstep
      simp only [exceptBind_ok] at h
      cases hrest : repeatLocalUnique g env m seen1 st1 with
      | error e => rw [hrest] at h; exact absurd h (by simp)
      | ok q =>
        obtain ⟨vs0, seen2, st2⟩ := q
        rw [hrest] at h
        obtain ⟨hvs, hseen2, -⟩ := by simpa using h
        subst hseen1
        obtain ⟨hnd, hlen, hmem, hrev⟩ := ih _ _ _ _ _ hrest
        subst hvs
        refine ⟨?_, ?_, ?_, ?_⟩
        · refine List.nodup_cons.mpr ⟨?_, hnd⟩
          intro hvin
          exact (hmem v hvin) (List.mem_cons_self v seen)
        · simp [hlen]
        · intro x hx
          rcases List.mem_cons.mp hx with hx | hx
          · subst hx; exact hv
          · intro hxs
            exact (hmem x hx) (List.mem_cons_of_mem v hxs)
        · rw [← hseen2, hrev]
          simp

theorem batchUniqueStep_ok {σ α : Type} [DecidableEq α] (g : Gen σ α)
    (sz : Size) (seen : List α) (env : REnv) (st : RMut σ)
    (vs : List α) (seen' : List α) (st' : RMut σ)
    (h : batchUniqueStep g sz seen env st = .ok (vs, seen', st')) :
    vs.Nodup ∧ (∀ x ∈ vs, x ∉ seen) ∧ seen' = vs.reverse ++ seen := by
  simp only [batchUniqueStep] at h
  cases hsz : resolveSize sz st with
  | error e => rw [hsz] at h; exact absurd h (by simp)
  | ok p =>
    rw [hsz] at h
    simp only [exceptBind_ok] at h
    obtain ⟨hnd, -, hmem, hrev⟩ :=
      repeatLocalUnique_ok g env p.1.toNat seen p.2 vs seen' st' h
    exact ⟨hnd, hmem, hrev⟩

/-- Claim C6: a `Batch` with `unique=True` and fixed size `n` only ever
returns sequences of `n` pairwise-distinct elements that avoid the
private set's prior contents (first conjunct: distinctness, length, and
the exact growth of the private set); and because that private set is
allocated once at build time and persists across invocations of the
built closure, the outputs of two successive invocations are disjoint —
their concatenation is also duplicate-free (second conjunct). -/
theorem C6_batch_unique_distinct :
    (∀ (σ α : Type) (inst : DecidableEq α) (g : Gen σ α) (n : Nat)
        (seen : List α) (env : REnv) (st : RMut σ) vs seen' st',
      batchUniqueStep g (.fixed (n : Int)) seen env st =
        .ok (vs, seen', st') →
      vs.Nodup ∧ vs.length = n ∧ (∀ x ∈ vs, x ∉ seen) ∧
        seen' = vs.reverse ++ seen)
    ∧ (∀ (σ α : Type) (inst : DecidableEq α) (g : Gen σ α) (sz1 sz2 : Size)
        (env : REnv) (st : RMut σ) vs1 seen1 st1 vs2 seen2 st2,
      batchUniqueStep g sz1 [] env st = .ok (vs1, seen1, st1) →
      batchUniqueStep g sz2 seen1 env st1 = .ok (vs2, seen2, st2) →
      (vs1 ++ vs2).Nodup) := by
  constructor
  · intro σ α inst g n seen env st vs seen' st' h
    simp only [batchUniqueStep, resolveSize, exceptBind_ok] at h
    obtain ⟨hnd, hlen, hmem, hrev⟩ :=
      repeatLocalUnique_ok g env ((n : Int)).toNat seen st vs seen' st' h
    refine ⟨hnd, ?_, hmem, hrev⟩
    simpa using hlen
  · intro σ α inst g sz1 sz2 env st vs1 seen1 st1 vs2 seen2 st2 h1 h2
    obtain ⟨hnd1, -, hrev1⟩ := batchUniqueStep_ok g sz1 [] env st _ _ _ h1
    obtain ⟨hnd2, hmem2, -⟩ := batchUniqueStep_ok g sz2 seen1 env st1 _ _ _ h2
    refine List.Nodup.append hnd1 hnd2 ?_
    intro a ha1 ha2
    refine (hmem2 a ha2) ?_
    rw [hrev1]
    simpa using ha1

/-- Witness for C6: a concrete unique batch of size 2 over
`integer(0, 10)` with the RNG stream `[1, 2]` yields the duplicate-free
sequence `[1, 2]`. -/
theorem C6_batch_unique_distinct_witness :
    ([1, 2] : List Int).Nodup ∧ ([1, 2] : List Int).length = 2 := by
  have h := C6_batch_unique_distinct.1 Int Int inferInstance
    (integer 0 10) 2 [] {} { rng := [1, 2] } [1, 2] [2, 1] { rng := [] }
    rfl
  exact ⟨h.1, h.2.1⟩

/-- Claim C1 as amended: the integer and string field-type generators
do order-normalise — every emitted `IntegerFieldType` has
`minimum ≤ maximum` and every emitted `StringFieldType` has
`minLength ≤ maxLength` whenever both bounds are present, for arbitrary
attribute sub-generators and every random draw.  (The number field-type
generator does not normalise; see the counterexample.) -/
theorem C1_integer_string_bounds_ordered :
    (∀ (σ : Type) (required unique : Gen σ (Option Bool))
        (minimum maximum : Gen σ (Option Int))
        (missingValues : Gen σ (Option (List String))) (env : REnv)
        (st : RMut σ) (r : IntegerFieldType) (st' : RMut σ),
      integer_field_type required unique minimum maximum missingValues
        env st = .ok (r, st') →
      boundsOrderedI r.minimum r.maximum = true)
    ∧ (∀ (σ : Type) (required unique : Gen σ (Option Bool))
        (minLength maxLength : Gen σ (Option Int))
        (missingValues : Gen σ (Option (List String)))
        (pattern : Gen σ (Option String)) (env : REnv)
        (st : RMut σ) (r : StringFieldType) (st' : RMut σ),
      string_field_type required unique minLength maxLength missingValues
        pattern env st = .ok (r, st') →
      boundsOrderedI r.minLength r.maxLength = true) := by
  constructor
  · intro σ required unique minimum maximum missingValues env st r st' h
    simp only [integer_field_type] at h
    obtain ⟨⟨l1, st1⟩, h1, h⟩ := exceptBind_ok_inv h
    obtain ⟨⟨l2, st2⟩, h2, h⟩ := exceptBind_ok_inv h
    obtain ⟨⟨req, st3⟩, h3, h⟩ := exceptBind_ok_inv h
    obtain ⟨⟨uq, st4⟩, h4, h⟩ := exceptBind_ok_inv h
    obtain ⟨⟨mv, st5⟩, h5, h⟩ := exceptBind_ok_inv h
    obtain ⟨hr, -⟩ := by simpa using h
    rw [← hr]
    cases l1 <;> cases l2 <;>
      simp [boundsOrderedI, min_le_max]
  · intro σ required unique minLength maxLength missingValues pattern env
      st r st' h
    simp only [string_field_type] at h
    obtain ⟨⟨l1, st1⟩, h1, h⟩ := exceptBind_ok_inv h
    obtain ⟨⟨l2, st2⟩, h2, h⟩ := exceptBind_ok_inv h
    obtain ⟨⟨req, st3⟩, h3, h⟩ := exceptBind_ok_inv h
    obtain ⟨⟨uq, st4⟩, h4, h⟩ := exceptBind_ok_inv h
    obtain ⟨⟨pat, st5⟩, h5, h⟩ := exceptBind_ok_inv h
    obtain ⟨⟨mv, st6⟩, h6, h⟩ := exceptBind_ok_inv h
    obtain ⟨hr, -⟩ := by simpa using h
    rw [← hr]
    cases l1 <;> cases l2 <;>
      simp [boundsOrderedI, min_le_max]

/-- Witness for C1: the integer conjunct at constant sub-generators
drawing `minimum = 9`, `maximum = 2` — the emitted record is
order-normalised to `minimum = 2`, `maximum = 9`. -/
theorem C1_integer_string_bounds_ordered_witness :
    boundsOrderedI (some (2 : Int)) (some (9 : Int)) = true :=
  C1_integer_string_bounds_ordered.1 Int
    (fun _ st => .ok (none, st)) (fun _ st => .ok (none, st))
    (fun _ st => .ok (some 9, st)) (fun _ st => .ok (some 2, st))
    (fun _ st => .ok (none, st)) {} { rng := [] }
    { required := none, unique := none, minimum := some 2,
      maximum := some 9, missingValues := none } { rng := [] } rfl

/-- Counterexample to claim C1 as stated: the number field-type
generator does not order-normalise.  The generator built from the
default `NumberFieldType` configuration, run on a concrete RNG stream,
emits a record with `minimum = 7 > maximum = 3`. -/
theorem C1_number_unnormalized_counterexample :
    builtNumberFieldTypeDefault wlDemo {}
        ({ rng := numberDemoStream } : RMut Int) =
      .ok ({ required := none, unique := none, minimum := some 7,
             maximum := some 3, missingValues := none }, { rng := [] })
    ∧ boundsOrderedQ (some 7) (some 3) = false := by
  constructor
  · simp only [builtNumberFieldTypeDefault, maybeBool, one_sub_ratHalf]
    rfl
  · rfl

theorem labelLevels_ok {σ : Type} (label_name : Gen σ String) :
    ∀ (vs : List (Int ⊕ String)) (seen : List String) (env : REnv)
      (st : RMut σ) levels seen' st',
      labelLevels label_name vs seen env st = .ok (levels, seen', st') →
      (∀ l ∈ levels, (l.label).isSome = true) ∧
      (levels.filterMap EnumIntegerLevel.label).Nodup ∧
      (∀ x ∈ levels.filterMap EnumIntegerLevel.label, x ∉ seen) := by
  intro vs
  induction vs with
  | nil =>
    intro seen env st levels seen' st' h
    obtain ⟨h1, -, -⟩ := by simpa [labelLevels] using h
    subst h1
    simp
  | cons v vs ih =>
    intro seen env st levels seen' st' h
    simp only [labelLevels] at h
    obtain ⟨⟨lab, seen1, st1⟩, h1, h⟩ := exceptBind_ok_inv h
    obtain ⟨⟨rest, seen2, st2⟩, h2, h⟩ := exceptBind_ok_inv h
    obtain ⟨hl, -, -⟩ := by simpa using h
    obtain ⟨hlab, hseen1⟩ :=
      localUniqueStep_ok label_name seen env st lab seen1 st1 h1
    obtain ⟨ihSome, ihNodup, ihNotin⟩ := ih seen1 env st1 rest seen2 st2 h2
    subst hseen1
    rw [← hl]
    refine ⟨?_, ?_, ?_⟩
    · intro l hml
      rcases List.mem_cons.mp hml with hc | hc
      · rw [hc]
        rfl
      · exact ihSome l hc
    · simp only [List.filterMap_cons]
      refine List.nodup_cons.mpr ⟨?_, ihNodup⟩
      intro hmem
      exact (ihNotin lab hmem) (List.mem_cons_self lab seen)
    · intro x hx
      simp only [List.filterMap_cons] at hx
      rcases List.mem_cons.mp hx with hc | hc
      · rw [hc]
        exact hlab
      · intro hxs
        exact (ihNotin x hc) (List.mem_cons_of_mem lab hxs)

/-- Claim C9: every record the `EnumInteger` field-type generator
emits is all-or-none labelled — a single coin flip against
`no_label_prob` decides labelling for the whole level set, so either
every level's label is `None` or every level carries a label — and
when labels are present they are pairwise distinct within the record
(drawn through the shared `local_unique(label_name)` closure). -/
theorem C9_enum_labels_all_or_none :
    ∀ (σ : Type) (value_range : Gen σ (Int × Int))
      (label_name : Gen σ String) (no_label_prob : Rat)
      (required unique ordered : Gen σ (Option Bool))
      (missingValues : Gen σ (Option (List String)))
      (labelSeen : List String) (env : REnv) (st : RMut σ)
      (r : EnumIntegerFieldType) (seen' : List String) (st' : RMut σ),
      enum_integer_field_type value_range label_name no_label_prob required
        unique ordered missingValues labelSeen env st =
          .ok (r, seen', st') →
      (∀ l ∈ r.levels, l.label = none)
      ∨ ((∀ l ∈ r.levels, (l.label).isSome = true) ∧
          (r.levels.filterMap EnumIntegerLevel.label).Nodup) := by
  intro σ value_range label_name no_label_prob required unique ordered
    missingValues labelSeen env st r seen' st' h
  simp only [enum_integer_field_type] at h
  obtain ⟨⟨mv, st1⟩, h1, h⟩ := exceptBind_ok_inv h
  obtain ⟨⟨vrange, st2⟩, h2, h⟩ := exceptBind_ok_inv h
  dsimp only at h
  by_cases hcoin : floatLt st2.peek no_label_prob
  · rw [if_pos hcoin] at h
    obtain ⟨⟨levels, seen1, st3⟩, h3, h⟩ := exceptBind_ok_inv h
    obtain ⟨⟨req, st4⟩, h4, h⟩ := exceptBind_ok_inv h
    obtain ⟨⟨uq, st5⟩, h5, h⟩ := exceptBind_ok_inv h
    obtain ⟨⟨od, st6⟩, h6, h⟩ := exceptBind_ok_inv h
    obtain ⟨hr, -, -⟩ := by simpa using h
    rw [← hr]
    obtain ⟨hlv, -, -⟩ := by simpa using h3
    left
    intro l hml
    dsimp only at hml
    rw [← hlv] at hml
    rcases List.mem_append.mp hml with hc | hc
    · obtain ⟨v, -, hv⟩ := List.mem_map.mp hc
      rw [← hv]
      rfl
    · obtain ⟨v, -, hv⟩ := List.mem_map.mp hc
      rw [← hv]
      rfl
  · rw [if_neg hcoin] at h
    obtain ⟨⟨levels, seen1, st3⟩, h3, h⟩ := exceptBind_ok_inv h
    obtain ⟨⟨req, st4⟩, h4, h⟩ := exceptBind_ok_inv h
    obtain ⟨⟨uq, st5⟩, h5, h⟩ := exceptBind_ok_inv h
    obtain ⟨⟨od, st6⟩, h6, h⟩ := exceptBind_ok_inv h
    obtain ⟨hr, -, -⟩ := by simpa using h
    rw [← hr]
    right
    obtain ⟨hsome, hnodup, -⟩ :=
      labelLevels_ok label_name _ _ env _ levels seen1 st3 h3
    exact ⟨hsome, hnodup⟩

/-- Witness for C9: a concrete labelled run — value range `(0, 2)`, a
two-word vocabulary for labels, `no_label_prob = 1/2` and a stream
whose coin lands in the labelled branch — produces the all-labelled,
distinctly-labelled record. -/
theorem C9_enum_labels_all_or_none_witness :
    (∀ l ∈ ([{ value := .inl 0, label := some "x" },
              { value := .inl 1, label := some "y" }] :
        List EnumIntegerLevel), l.label = none)
    ∨ ((∀ l ∈ ([{ value := .inl 0, label := some "x" },
              { value := .inl 1, label := some "y" }] :
        List EnumIntegerLevel), (l.label).isSome = true) ∧
        (([{ value := .inl 0, label := some "x" },
           { value := .inl 1, label := some "y" }] :
          List EnumIntegerLevel).filterMap
            EnumIntegerLevel.label).Nodup) :=
  C9_enum_labels_all_or_none Int
    (fun _ st => .ok ((0, 2), st))
    (word (fun _ => ["x", "y"])) ratHalf
    (fun _ st => .ok (none, st)) (fun _ st => .ok (none, st))
    (fun _ st => .ok (none, st)) (fun _ st => .ok (none, st))
    [] {} { rng := [bigDraw, 0, 1] }
    { levels := [{ value := .inl 0, label := some "x" },
                 { value := .inl 1, label := some "y" }],
      required := none, unique := none, ordered := none,
      missingValues := none }
    ["y", "x"] { rng := [] } rfl

theorem isSubsetType_refl (a : PyType) : isSubsetType a a = .ok true := by
  rw [isSubsetType.eq_def]
  simp

theorem pyTypeListInduction (motive : PyTypeList → Prop) (nil : motive .nil)
    (cons : ∀ x xs, motive xs → motive (.cons x xs)) : ∀ xs, motive xs := by
  have key : ∀ (n : Nat) (ys : PyTypeList), sizeOf ys ≤ n → motive ys := by
    intro n
    induction n with
    | zero =>
      intro ys hy
      cases ys with
      | nil => exact nil
      | cons y ys2 =>
        have hs : sizeOf (PyTypeList.cons y ys2) =
            1 + sizeOf y + sizeOf ys2 := by simp
        omega
    | succ k ihn =>
      intro ys hy
      cases ys with
      | nil => exact nil
      | cons y ys2 =>
        have hs : sizeOf (PyTypeList.cons y ys2) =
            1 + sizeOf y + sizeOf ys2 := by simp
        refine cons y ys2 (ihn ys2 ?_)
        omega
  intro xs
  exact key (sizeOf xs) xs le_rfl

theorem sizeOf_lt_of_mem_toList :
    ∀ (xs : PyTypeList) (x : PyType), x ∈ xs.toList → sizeOf x < sizeOf xs := by
  intro xs
  induction xs using pyTypeListInduction with
  | nil => intro x hx; simp [PyTypeList.toList] at hx
  | cons y ys ih =>
    intro x hx
    have hs : sizeOf (PyTypeList.cons y ys) = 1 + sizeOf y + sizeOf ys := by
      simp
    rcases List.mem_cons.mp (by simpa [PyTypeList.toList] using hx) with hc | hc
    · subst hc
      omega
    · have h2 := ih x hc
      omega

theorem noGenList_mem :
    ∀ (xs : PyTypeList) (x : PyType), noGenList xs = true → x ∈ xs.toList →
      noGen x = true := by
  intro xs
  induction xs using pyTypeListInduction with
  | nil => intro x _ hx; simp [PyTypeList.toList] at hx
  | cons y ys ih =>
    intro x hng hx
    simp only [noGenList, Bool.and_eq_true] at hng
    rcases List.mem_cons.mp (by simpa [PyTypeList.toList] using hx) with hc | hc
    · subst hc
      exact hng.1
    · exact ih x hng.2 hc

theorem allSubset_ok_true_iff :
    ∀ (xs : PyTypeList) (b : PyType),
      allSubset xs b = .ok true ↔
        ∀ x ∈ xs.toList, isSubsetType x b = .ok true := by
  intro xs b
  induction xs using pyTypeListInduction with
  | nil => simp [allSubset, PyTypeList.toList]
  | cons x xs ih =>
    cases hx : isSubsetType x b with
    | error e =>
      simp only [allSubset, hx]
      constructor
      · intro h
        exact absurd h (by simp)
      · intro h
        have hh := h x (by simp [PyTypeList.toList])
        rw [hx] at hh
        exact absurd hh (by simp)
    | ok bv =>
      cases bv with
      | false =>
        simp only [allSubset, hx]
        constructor
        · intro h
          exact absurd h (by simp)
        · intro h
          have hh := h x (by simp [PyTypeList.toList])
          rw [hx] at hh
          exact absurd hh (by simp)
      | true =>
        simp only [allSubset, hx]
        rw [ih]
        constructor
        · intro h y hy
          rcases List.mem_cons.mp (by simpa [PyTypeList.toList] using hy)
            with hc | hc
          · subst hc
            exact hx
          · exact h y hc
        · intro h y hy
          refine h y ?_
          simp only [PyTypeList.toList, List.mem_cons]
          exact Or.inr hy

theorem anySubset_ok_true_of :
    ∀ (a : PyType) (xs : PyTypeList),
      (∀ x ∈ xs.toList, ∃ r, isSubsetType a x = .ok r) →
      (∃ x ∈ xs.toList, isSubsetType a x = .ok true) →
      anySubset a xs = .ok true := by
  intro a xs
  induction xs using pyTypeListInduction with
  | nil =>
    intro _ hex
    obtain ⟨x, hx, -⟩ := hex
    simp [PyTypeList.toList] at hx
  | cons y ys ih =>
    intro htot hex
    cases hy : isSubsetType a y with
    | error e =>
      obtain ⟨r, hr⟩ := htot y (by simp [PyTypeList.toList])
      rw [hy] at hr
      exact absurd hr (by simp)
    | ok bv =>
      cases bv with
      | true => simp [anySubset, hy]
      | false =>
        simp only [anySubset, hy]
        refine ih ?_ ?_
        · intro x hx
          refine htot x ?_
          simp only [PyTypeList.toList, List.mem_cons]
          exact Or.inr hx
        · obtain ⟨x, hx, hxt⟩ := hex
          rcases List.mem_cons.mp (by simpa [PyTypeList.toList] using hx)
            with hc | hc
          · subst hc
            rw [hy] at hxt
            exact absurd hxt (by simp)
          · exact ⟨x, hc, hxt⟩

theorem subsetTotalAux :
    ∀ n : Nat,
      (∀ a b, sizeOf a + sizeOf b ≤ n → noGen b = true →
        ∃ r, isSubsetType a b = .ok r)
      ∧ (∀ (xs : PyTypeList) b, sizeOf xs + sizeOf b ≤ n → noGen b = true →
        ∃ r, allSubset xs b = .ok r)
      ∧ (∀ a (xs : PyTypeList), sizeOf a + sizeOf xs ≤ n →
        noGenList xs = true → ∃ r, anySubset a xs = .ok r) := by
  intro n
  induction n using Nat.strong_induction_on with
  | _ n ih =>
  refine ⟨?_, ?_, ?_⟩
  · intro a b hsz hb
    by_cases hab : a = b
    · subst hab
      exact ⟨true, isSubsetType_refl a⟩
    · cases a with
      | union args =>
        have hs : sizeOf (PyType.union args) = 1 + sizeOf args := by simp
        obtain ⟨r, hr⟩ := (ih (sizeOf args + sizeOf b) (by omega)).2.1
          args b le_rfl hb
        refine ⟨r, ?_⟩
        rw [isSubsetType, if_neg hab]
        exact hr
      | nominal c =>
        cases b with
        | nominal cb =>
          refine ⟨pySubclass c cb, ?_⟩
          rw [isSubsetType, if_neg hab]
        | generic ob bs => simp [noGen] at hb
        | union bs =>
          have hs : sizeOf (PyType.union bs) = 1 + sizeOf bs := by simp
          obtain ⟨r, hr⟩ := (ih (sizeOf (PyType.nominal c) + sizeOf bs)
            (by omega)).2.2 (.nominal c) bs le_rfl (by simpa [noGen] using hb)
          refine ⟨r, ?_⟩
          rw [isSubsetType, if_neg hab]
          · exact hr
          ·
            intro args1 hcontra
            exact PyType.noConfusion hcontra
      | generic o as =>
        cases b with
        | nominal cb =>
          refine ⟨false, ?_⟩
          rw [isSubsetType, if_neg hab]
          intro args1 hcontra
          exact PyType.noConfusion hcontra
        | generic ob bs =>
          refine ⟨false, ?_⟩
          rw [isSubsetType, if_neg hab]
          intro args1 hcontra
          exact PyType.noConfusion hcontra
        | union bs =>
          have hs : sizeOf (PyType.union bs) = 1 + sizeOf bs := by simp
          obtain ⟨r, hr⟩ := (ih (sizeOf (PyType.generic o as) + sizeOf bs)
            (by omega)).2.2 (.generic o as) bs le_rfl
            (by simpa [noGen] using hb)
          refine ⟨r, ?_⟩
          rw [isSubsetType, if_neg hab]
          · exact hr
          · intro args1 hcontra
            exact PyType.noConfusion hcontra
  · intro xs b hsz hb
    cases xs with
    | nil => exact ⟨true, by simp [allSubset]⟩
    | cons x xs2 =>
      have hs : sizeOf (PyTypeList.cons x xs2) =
          1 + sizeOf x + sizeOf xs2 := by simp
      obtain ⟨r, hr⟩ := (ih (sizeOf x + sizeOf b) (by omega)).1 x b le_rfl hb
      cases r with
      | false => exact ⟨false, by simp [allSubset, hr]⟩
      | true =>
        obtain ⟨r2, hr2⟩ := (ih (sizeOf xs2 + sizeOf b) (by omega)).2.1
          xs2 b le_rfl hb
        exact ⟨r2, by simp [allSubset, hr, hr2]⟩
  · intro a xs hsz hxs
    cases xs with
    | nil => exact ⟨false, by simp [anySubset]⟩
    | cons x xs2 =>
      have hs : sizeOf (PyTypeList.cons x xs2) =
          1 + sizeOf x + sizeOf xs2 := by simp
      simp only [noGenList, Bool.and_eq_true] at hxs
      obtain ⟨r, hr⟩ := (ih (sizeOf a + sizeOf x) (by omega)).1 a x
        le_rfl hxs.1
      cases r with
      | true => exact ⟨true, by simp [anySubset, hr]⟩
      | false =>
        obtain ⟨r2, hr2⟩ := (ih (sizeOf a + sizeOf xs2) (by omega)).2.2
          a xs2 le_rfl hxs.2
        exact ⟨r2, by simp [anySubset, hr, hr2]⟩

theorem isSubsetType_total (a b : PyType) (hb : noGen b = true) :
    ∃ r, isSubsetType a b = .ok r :=
  (subsetTotalAux (sizeOf a + sizeOf b)).1 a b le_rfl hb

theorem union_mem_true_aux :
    ∀ (n : Nat) (x : PyType), sizeOf x ≤ n →
      ∀ (bs : PyTypeList) (b' : PyType), noGen (.union bs) = true →
        b' ∈ bs.toList → isSubsetType x b' = .ok true →
        isSubsetType x (.union bs) = .ok true := by
  intro n
  induction n using Nat.strong_induction_on with
  | _ n ih =>
  intro x hszx bs b' hng hmem htrue
  by_cases hxb : x = PyType.union bs
  · rw [hxb]
    exact isSubsetType_refl _
  · cases x with
    | union xs =>
      have hs : sizeOf (PyType.union xs) = 1 + sizeOf xs := by simp
      have hall : ∀ y ∈ xs.toList, isSubsetType y (.union bs) = .ok true := by
        intro y hy
        have h1 := sizeOf_lt_of_mem_toList xs y hy
        have hyb' : isSubsetType y b' = .ok true := by
          by_cases hxb' : PyType.union xs = b'
          · rw [← hxb']
            have hb' : noGen b' = true :=
              noGenList_mem bs b' (by simpa [noGen] using hng) hmem
            refine ih (sizeOf y) (by omega) y le_rfl xs y ?_ hy
              (isSubsetType_refl y)
            rw [hxb']
            exact hb'
          · rw [isSubsetType, if_neg hxb'] at htrue
            exact (allSubset_ok_true_iff xs b').mp htrue y hy
        exact ih (sizeOf y) (by omega) y le_rfl bs b' hng hmem hyb'
      rw [isSubsetType, if_neg hxb]
      exact (allSubset_ok_true_iff xs _).mpr hall
    | nominal c =>
      rw [isSubsetType, if_neg hxb]
      · refine anySubset_ok_true_of _ _ ?_ ⟨b', hmem, htrue⟩
        intro w hw
        exact isSubsetType_total _ w
          (noGenList_mem bs w (by simpa [noGen] using hng) hw)
      · intro args1 hcontra
        exact PyType.noConfusion hcontra
    | generic o as =>
      rw [isSubsetType, if_neg hxb]
      · refine anySubset_ok_true_of _ _ ?_ ⟨b', hmem, htrue⟩
        intro w hw
        exact isSubsetType_total _ w
          (noGenList_mem bs w (by simpa [noGen] using hng) hw)
      · intro args1 hcontra
        exact PyType.noConfusion hcontra

theorem union_mem_true (x : PyType) (bs : PyTypeList) (b' : PyType)
    (hng : noGen (.union bs) = true) (hmem : b' ∈ bs.toList)
    (htrue : isSubsetType x b' = .ok true) :
    isSubsetType x (.union bs) = .ok true :=
  union_mem_true_aux (sizeOf x) x le_rfl bs b' hng hmem htrue

/-- Claim C5 as amended: `is_subset_type` is reflexive (first conjunct,
unconditionally); and the union-distributive laws hold on the fragment
where the recursive checks cannot raise — when the descriptors contain
no parameterised generic, a union `A` satisfies `B` iff every member of
`A` satisfies `B` (second conjunct), and a non-union `A` satisfies a
union `B` whose members are generic-free whenever some member of `B` is
satisfied by `A` (third conjunct).  With a parameterised generic inside
a union both distributive laws fail, because `issubclass` raises
`TypeError`: see the counterexample. -/
theorem C5_is_subset_type_refl_union_distrib :
    (∀ a : PyType, isSubsetType a a = .ok true)
    ∧ (∀ (args : PyTypeList) (b : PyType),
        noGen (.union args) = true → noGen b = true →
        (isSubsetType (.union args) b = .ok true ↔
          ∀ x ∈ args.toList, isSubsetType x b = .ok true))
    ∧ (∀ (a : PyType) (args : PyTypeList),
        a.isUnionB = false → noGenList args = true →
        (∃ x ∈ args.toList, isSubsetType a x = .ok true) →
        isSubsetType a (.union args) = .ok true) := by
  refine ⟨isSubsetType_refl, ?_, ?_⟩
  · intro args b hnga hngb
    constructor
    · intro h x hx
      by_cases hab : PyType.union args = b
      · subst hab
        exact union_mem_true x args x hnga hx (isSubsetType_refl x)
      · rw [isSubsetType, if_neg hab] at h
        exact (allSubset_ok_true_iff args b).mp h x hx
    · intro h
      by_cases hab : PyType.union args = b
      · rw [← hab]
        exact isSubsetType_refl _
      · rw [isSubsetType, if_neg hab]
        exact (allSubset_ok_true_iff args b).mpr h
  · intro a args hau hng hex
    cases a with
    | union xs => simp [PyType.isUnionB] at hau
    | nominal c =>
      have hab : PyType.nominal c ≠ PyType.union args := fun hcontra =>
        PyType.noConfusion hcontra
      rw [isSubsetType, if_neg hab]
      · refine anySubset_ok_true_of _ _ ?_ hex
        intro w hw
        exact isSubsetType_total _ w (noGenList_mem args w hng hw)
      · intro args1 hcontra
        exact PyType.noConfusion hcontra
    | generic o as =>
      have hab : PyType.generic o as ≠ PyType.union args := fun hcontra =>
        PyType.noConfusion hcontra
      rw [isSubsetType, if_neg hab]
      · refine anySubset_ok_true_of _ _ ?_ hex
        intro w hw
        exact isSubsetType_total _ w (noGenList_mem args w hng hw)
      · intro args1 hcontra
        exact PyType.noConfusion hcontra

/-- Witness for C5: the distributive laws at concrete generic-free
descriptors — `Union[str, int]` against `str`, and `int` against
`Union[int]`. -/
theorem C5_is_subset_type_refl_union_distrib_witness :
    (isSubsetType
        (.union (.cons (.nominal .strC) (.cons (.nominal .intC) .nil)))
        (.nominal .strC) = .ok true ↔
      ∀ x ∈ (PyTypeList.cons (.nominal .strC)
          (.cons (.nominal .intC) .nil)).toList,
        isSubsetType x (.nominal .strC) = .ok true)
    ∧ isSubsetType (.nominal .intC)
        (.union (.cons (.nominal .intC) .nil)) = .ok true :=
  ⟨C5_is_subset_type_refl_union_distrib.2.1
      (.cons (.nominal .strC) (.cons (.nominal .intC) .nil))
      (.nominal .strC) (by decide) (by decide),
   C5_is_subset_type_refl_union_distrib.2.2 (.nominal .intC)
      (.cons (.nominal .intC) .nil) (by decide) (by decide)
      ⟨.nominal .intC, by simp [PyTypeList.toList], isSubsetType_refl _⟩⟩

/-- Counterexample to claim C5 as stated, at the descriptor
`U = Union[TupleSeq[int], int]`: `U` satisfies `U` (identity) and `int`
satisfies the member `int` of `U`, yet `is_subset_type(int, U)` raises
`TypeError` — so "a union `A` satisfies `B` iff every member of `A`
satisfies `B`" fails (take `A = B = U` and the member `int`), and "a
non-union `A` satisfies a union `B` if some member of `B` is satisfied
by `A`" fails (take `A = int`, `B = U`). -/
theorem C5_generic_union_typeerror_counterexample :
    isSubsetType genericUnion genericUnion = .ok true
    ∧ (PyType.nominal .intC) ∈ unionMembers genericUnion
    ∧ isSubsetType (.nominal .intC) (.nominal .intC) = .ok true
    ∧ isSubsetType (.nominal .intC) genericUnion = .error () := by
  refine ⟨isSubsetType_refl _, ?_, isSubsetType_refl _, ?_⟩
  · simp [unionMembers, genericUnion, PyTypeList.toList]
  · simp [isSubsetType, genericUnion, anySubset]

end FSynth
